import Mathlib

/-!
# Verification of the json5pp codec (include/json5pp.hpp)

A shallow embedding of the json5pp JSON / JSON5 codec:

* the input character stream is a `List Nat` of byte values (0-255); the
  C++ `istream::get` returning `char_traits::eof()` is modelled by an
  `Option Nat` result (`none` = end of input); `unget` after a successful
  `get` pushes the byte back, `unget` after end of input is a no-op (the
  failed C++ stream stays at end of input);
* C++ `unsigned long long` arithmetic is `Nat` arithmetic taken `% 2^64`,
  narrowing casts to `int` / `long long` take the value `% 2^32` / `% 2^64`
  and reinterpret it in two's complement;
* the C++ `double` payload is idealized by `FloatVal`: an exact rational
  for finite values plus explicit NaN / signed-infinity cases.  The claims
  settled against it concern which variant case is produced and values
  that `double` represents exactly; no theorem below depends on rounding;
* `std::map<std::string, value>` is a key-sorted association list
  (`std::string` ordering compares bytes as unsigned chars);
* exceptions become `Except SyntaxErr`, carrying the offending character
  (`none` = unexpected end of input) and the context label;
* the parser's recursion (mutual between `parse_value` and the
  array/object loops) is made total with a fuel parameter; the top level
  entry points supply fuel `2 * input.length + 2`, which is shown
  sufficient for all inputs used by the theorems below.
-/

namespace Json5pp

/-- Grammar flags of `json5pp::impl::flags` (syntax bits only; the
`finished` bit is passed separately, matching `parse(istream, finished)`). -/
structure Flags where
  slc : Bool   -- single_line_comment
  mlc : Bool   -- multi_line_comment
  explicit_plus_sign : Bool
  leading_decimal_point : Bool
  trailing_decimal_point : Bool
  infinity_number : Bool
  nan_literal : Bool   -- not_a_number
  hexadecimal : Bool
  single_quote : Bool
  multi_line_string : Bool
  trailing_comma : Bool
  unquoted_key : Bool
deriving DecidableEq

/-- `rule::ecma404`: all syntax bits clear (strict JSON). -/
def ecma404 : Flags := ⟨false, false, false, false, false, false, false, false, false, false, false, false⟩

/-- `rule::json5` = `flags::json5_rules`: all syntax bits set. -/
def json5 : Flags := ⟨true, true, true, true, true, true, true, true, true, true, true, true⟩

/-- Idealization of the C++ `double` payload: exact rational for finite
values, plus NaN and signed infinity ( `true` = negative). -/
inductive FloatVal where
  | finite : Rat → FloatVal
  | infty : Bool → FloatVal
  | nan : FloatVal
deriving DecidableEq

/-- The variant content of `json5pp::value`.  The C++ variant lists
`monostate, bool, int, long, float, double, string, array, object`; parsing
only ever produces `monostate / bool / int / double / string / array /
object`, and the `long` / `float` alternatives arise only from explicit
construction, so the model folds the integral alternatives into `integer`
(the platform `int`, whose range matters) and the floating ones into
`flt`. -/
inductive value where
  | vnull : value
  | boolean : Bool → value
  | integer : Int → value
  | flt : FloatVal → value
  | str : List Nat → value
  | arr : List value → value
  | obj : List (List Nat × value) → value

mutual
/-- Decidable structural equality for `value` (the derive handler does not
support nested inductives). -/
def value.decEq : (v w : value) → Decidable (v = w)
  | .vnull, .vnull => isTrue rfl
  | .boolean a, .boolean b =>
    if h : a = b then isTrue (by rw [h]) else isFalse (fun he => h (value.boolean.inj he))
  | .integer a, .integer b =>
    if h : a = b then isTrue (by rw [h]) else isFalse (fun he => h (value.integer.inj he))
  | .flt a, .flt b =>
    if h : a = b then isTrue (by rw [h]) else isFalse (fun he => h (value.flt.inj he))
  | .str a, .str b =>
    if h : a = b then isTrue (by rw [h]) else isFalse (fun he => h (value.str.inj he))
  | .arr a, .arr b =>
    match value.decEqList a b with
    | isTrue h => isTrue (by rw [h])
    | isFalse h => isFalse (fun he => h (value.arr.inj he))
  | .obj a, .obj b =>
    match value.decEqMembers a b with
    | isTrue h => isTrue (by rw [h])
    | isFalse h => isFalse (fun he => h (value.obj.inj he))
  | .vnull, .boolean _ => isFalse (fun h => value.noConfusion h)
  | .vnull, .integer _ => isFalse (fun h => value.noConfusion h)
  | .vnull, .flt _ => isFalse (fun h => value.noConfusion h)
  | .vnull, .str _ => isFalse (fun h => value.noConfusion h)
  | .vnull, .arr _ => isFalse (fun h => value.noConfusion h)
  | .vnull, .obj _ => isFalse (fun h => value.noConfusion h)
  | .boolean _, .vnull => isFalse (fun h => value.noConfusion h)
  | .boolean _, .integer _ => isFalse (fun h => value.noConfusion h)
  | .boolean _, .flt _ => isFalse (fun h => value.noConfusion h)
  | .boolean _, .str _ => isFalse (fun h => value.noConfusion h)
  | .boolean _, .arr _ => isFalse (fun h => value.noConfusion h)
  | .boolean _, .obj _ => isFalse (fun h => value.noConfusion h)
  | .integer _, .vnull => isFalse (fun h => value.noConfusion h)
  | .integer _, .boolean _ => isFalse (fun h => value.noConfusion h)
  | .integer _, .flt _ => isFalse (fun h => value.noConfusion h)
  | .integer _, .str _ => isFalse (fun h => value.noConfusion h)
  | .integer _, .arr _ => isFalse (fun h => value.noConfusion h)
  | .integer _, .obj _ => isFalse (fun h => value.noConfusion h)
  | .flt _, .vnull => isFalse (fun h => value.noConfusion h)
  | .flt _, .boolean _ => isFalse (fun h => value.noConfusion h)
  | .flt _, .integer _ => isFalse (fun h => value.noConfusion h)
  | .flt _, .str _ => isFalse (fun h => value.noConfusion h)
  | .flt _, .arr _ => isFalse (fun h => value.noConfusion h)
  | .flt _, .obj _ => isFalse (fun h => value.noConfusion h)
  | .str _, .vnull => isFalse (fun h => value.noConfusion h)
  | .str _, .boolean _ => isFalse (fun h => value.noConfusion h)
  | .str _, .integer _ => isFalse (fun h => value.noConfusion h)
  | .str _, .flt _ => isFalse (fun h => value.noConfusion h)
  | .str _, .arr _ => isFalse (fun h => value.noConfusion h)
  | .str _, .obj _ => isFalse (fun h => value.noConfusion h)
  | .arr _, .vnull => isFalse (fun h => value.noConfusion h)
  | .arr _, .boolean _ => isFalse (fun h => value.noConfusion h)
  | .arr _, .integer _ => isFalse (fun h => value.noConfusion h)
  | .arr _, .flt _ => isFalse (fun h => value.noConfusion h)
  | .arr _, .str _ => isFalse (fun h => value.noConfusion h)
  | .arr _, .obj _ => isFalse (fun h => value.noConfusion h)
  | .obj _, .vnull => isFalse (fun h => value.noConfusion h)
  | .obj _, .boolean _ => isFalse (fun h => value.noConfusion h)
  | .obj _, .integer _ => isFalse (fun h => value.noConfusion h)
  | .obj _, .flt _ => isFalse (fun h => value.noConfusion h)
  | .obj _, .str _ => isFalse (fun h => value.noConfusion h)
  | .obj _, .arr _ => isFalse (fun h => value.noConfusion h)

/-- Decidable equality of value lists. -/
def value.decEqList : (a b : List value) → Decidable (a = b)
  | [], [] => isTrue rfl
  | [], _ :: _ => isFalse (fun h => List.noConfusion h)
  | _ :: _, [] => isFalse (fun h => List.noConfusion h)
  | x :: xs, y :: ys =>
    match value.decEq x y, value.decEqList xs ys with
    | isTrue h1, isTrue h2 => isTrue (by rw [h1, h2])
    | isFalse h1, _ => isFalse (by intro he; injection he with ha hb; exact h1 ha)
    | _, isFalse h2 => isFalse (by intro he; injection he with ha hb; exact h2 hb)

/-- Decidable equality of object member lists. -/
def value.decEqMembers : (a b : List (List Nat × value)) → Decidable (a = b)
  | [], [] => isTrue rfl
  | [], _ :: _ => isFalse (fun h => List.noConfusion h)
  | _ :: _, [] => isFalse (fun h => List.noConfusion h)
  | (k, x) :: xs, (l, y) :: ys =>
    if hk : k = l then
      match value.decEq x y, value.decEqMembers xs ys with
      | isTrue h1, isTrue h2 => isTrue (by rw [hk, h1, h2])
      | isFalse h1, _ =>
        isFalse (by intro he; injection he with ha hb; exact h1 (congrArg Prod.snd ha))
      | _, isFalse h2 => isFalse (by intro he; injection he with ha hb; exact h2 hb)
    else isFalse (by intro he; injection he with ha hb; exact hk (congrArg Prod.fst ha))
end

instance : DecidableEq value := value.decEq

structure SyntaxErr where
  ch : Option Nat
  context : String
deriving DecidableEq

instance {e a : Type} [DecidableEq e] [DecidableEq a] : DecidableEq (Except e a) := fun x y =>
  match x, y with
  | .ok u, .ok v =>
    if h : u = v then isTrue (by rw [h]) else isFalse (by intro he; cases he; exact h rfl)
  | .error u, .error v =>
    if h : u = v then isTrue (by rw [h]) else isFalse (by intro he; cases he; exact h rfl)
  | .ok _, .error _ => isFalse (by intro he; cases he)
  | .error _, .ok _ => isFalse (by intro he; cases he)

/-! ## Lexical scanner -/

/-- `parser::is_digit`. -/
def is_digit (ch : Nat) : Bool := 48 ≤ ch && ch ≤ 57

/-- `parser::to_number`. -/
def to_number (ch : Nat) : Nat := ch - 48

/-- `parser::to_number_hex`; `none` models the negative return value. -/
def to_number_hex (ch : Nat) : Option Nat :=
  if is_digit ch then some (to_number ch)
  else if 65 ≤ ch ∧ ch ≤ 70 then some (ch - 65 + 10)
  else if 97 ≤ ch ∧ ch ≤ 102 then some (ch - 97 + 10)
  else none

/-- `parser::is_alpha`. -/
def is_alpha (ch : Nat) : Bool := (65 ≤ ch && ch ≤ 90) || (97 ≤ ch && ch ≤ 122)

/-- Whitespace recognized by `skip_spaces`: tab, LF, CR, space. -/
def isSpace (ch : Nat) : Bool := ch == 9 || ch == 10 || ch == 13 || ch == 32

/-- Control state of `skip_spaces`: `scan` is the top of its `for (;;)`
loop, `line` is inside a single-line comment body, `block` inside a block
comment body, `blockStar` right after a `*` inside a block comment (the
`reeval_asterisk` position). -/
inductive SkipSt where
  | scan : SkipSt
  | line : SkipSt
  | block : SkipSt
  | blockStar : SkipSt
deriving DecidableEq

/-- `parser::skip_spaces`, written as one pass over the input: consume
whitespace and (when the flags allow) comments, returning the first other
character — which has been consumed from the stream, exactly as the C++
`int ch = skip_spaces()` leaves it — together with the remaining input.
`none` is the EOF sentinel.  At end of input, a single-line comment just
ends (the source breaks and returns EOF), while an unterminated block
comment throws `syntax_error(eof, "comment")`.  When a `/` is read with a
comment flag enabled but the following character opens no comment, the
source falls through to `default: return ch` with `ch` the character
after the `/`: both characters are consumed. -/
def skipSpacesGo (fl : Flags) (st : SkipSt) : List Nat → Except SyntaxErr (Option Nat × List Nat)
  | [] =>
    match st with
    | .scan => .ok (none, [])
    | .line => .ok (none, [])
    | .block => .error ⟨none, "comment"⟩
    | .blockStar => .error ⟨none, "comment"⟩
  | c :: rest =>
    match st with
    | .scan =>
      if isSpace c then skipSpacesGo fl .scan rest
      else if c = 47 ∧ (fl.slc ∨ fl.mlc) then
        match rest with
        | [] => .ok (none, [])
        | d :: rest2 =>
          if fl.slc ∧ d = 47 then skipSpacesGo fl .line rest2
          else if fl.mlc ∧ d = 42 then skipSpacesGo fl .block rest2
          else .ok (some d, rest2)
      else .ok (some c, rest)
    | .line =>
      if c = 13 ∨ c = 10 then skipSpacesGo fl .scan rest
      else skipSpacesGo fl .line rest
    | .block =>
      if c = 42 then skipSpacesGo fl .blockStar rest
      else skipSpacesGo fl .block rest
    | .blockStar =>
      if c = 47 then skipSpacesGo fl .scan rest
      else if c = 42 then skipSpacesGo fl .blockStar rest
      else skipSpacesGo fl .block rest

/-- `parser::skip_spaces` proper (start in the loop state). -/
def skip_spaces (fl : Flags) (input : List Nat) : Except SyntaxErr (Option Nat × List Nat) :=
  skipSpacesGo fl .scan input

/-- `parser::equals(ch, expected...)`: consume and compare a fixed
character sequence.  Returns the match flag, the last character read when
the match failed (available for error reporting), and the remaining
input. -/
def eqSeq : List Nat → List Nat → Bool × Option Nat × List Nat
  | [], input => (true, none, input)
  | _ :: _, [] => (false, none, [])
  | e :: es, c :: rest => if c = e then eqSeq es rest else (false, some c, rest)

/-- `istream.unget()` right after a `get` that returned `ch`: a real
character is pushed back; after end of input the failed stream stays at
end of input. -/
def unget (ch : Option Nat) (rest : List Nat) : List Nat :=
  match ch with
  | some c => c :: rest
  | none => rest

/-! ## Number parsing

`parse_number` accumulates into `unsigned long long int_part, frac_part`
(64-bit, wrapping), `int frac_divs, exp_part` and two sign flags, then
decides between the `int` and `double` alternatives. -/

/-- The decimal-digit accumulation loops over `int_part` / `frac_part`
(`unsigned long long`, so each step wraps modulo `2^64`).  Returns the
accumulator, the terminating character (consumed, as in the source), and
the rest. -/
def scanDigits (acc : Nat) : List Nat → Nat × Option Nat × List Nat
  | [] => (acc, none, [])
  | c :: rest =>
    if is_digit c then scanDigits ((acc * 10 + to_number c) % 2 ^ 64) rest
    else (acc, some c, rest)

/-- The fraction loop: like `scanDigits` but also counting `frac_divs`. -/
def scanFrac (acc divs : Nat) : List Nat → Nat × Nat × Option Nat × List Nat
  | [] => (acc, divs, none, [])
  | c :: rest =>
    if is_digit c then scanFrac ((acc * 10 + to_number c) % 2 ^ 64) (divs + 1) rest
    else (acc, divs, some c, rest)

/-- The exponent digit loop.  `exp_part` is a C++ `int`; its signed
overflow (needing a ten-digit exponent literal) is undefined behaviour in
the source and idealized here as unbounded `Nat` accumulation. -/
def scanExp (acc : Nat) : List Nat → Nat × Option Nat × List Nat
  | [] => (acc, none, [])
  | c :: rest =>
    if is_digit c then scanExp (acc * 10 + to_number c) rest
    else (acc, some c, rest)

/-- The hex-digit loop: `int_part = (int_part << 4) | digit` on
`unsigned long long`.  Also tracks the `no_digit` flag; the terminating
character is pushed back (`istream.unget()`), hence returned in the
remaining input. -/
def scanHex (acc : Nat) (noDigit : Bool) : List Nat → Nat × Bool × Option Nat × List Nat
  | [] => (acc, noDigit, none, [])
  | c :: rest =>
    match to_number_hex c with
    | some d => scanHex ((acc * 16 + d) % 2 ^ 64) false rest
    | none => (acc, noDigit, some c, c :: rest)

/-- `static_cast<int>` of an `unsigned long long` value: reduce modulo
`2^32` and reinterpret in two's complement. -/
def toI32 (n : Nat) : Int :=
  if n % 2 ^ 32 < 2 ^ 31 then ((n % 2 ^ 32 : Nat) : Int)
  else ((n % 2 ^ 32 : Nat) : Int) - 2 ^ 32

/-- `static_cast<long long>` of an `unsigned long long` value. -/
def toI64 (n : Nat) : Int :=
  if n % 2 ^ 64 < 2 ^ 63 then ((n % 2 ^ 64 : Nat) : Int)
  else ((n % 2 ^ 64 : Nat) : Int) - 2 ^ 64

/-- `static_cast<unsigned long long>` of a signed value: modulo `2^64`. -/
def toU64 (i : Int) : Nat := (i % (2 ^ 64 : Int)).toNat

/-- Unary minus on `unsigned long long` (the `-int_part` in the negative
narrowing test). -/
def negU64 (n : Nat) : Nat := (2 ^ 64 - n % 2 ^ 64) % 2 ^ 64

/-- The tail of `parse_number` after the `[digit|digits]` block broke out
with accumulator `int_part` and current character `ch`: the `[frac]` and
`[exp]` sections, the final `istream.unget()`, the integer/float decision,
and floating emission (`(double)int_part + frac·10^(−divs)`, then
`·10^(±exp)`, then the sign — exact rational arithmetic standing in for
`double`). -/
def parse_number_tail (fl : Flags) (negative : Bool) (int_part : Nat)
    (ch : Option Nat) (input : List Nat) : Except SyntaxErr (value × List Nat) :=
  let fracRes : Except SyntaxErr (Nat × Nat × Option Nat × List Nat) :=
    if ch = some 46 then
      match scanFrac 0 0 input with
      | (frac, divs, ch2, input2) =>
        if ¬fl.trailing_decimal_point ∧ divs = 0 then .error ⟨ch2, "number"⟩
        else .ok (frac, divs, ch2, input2)
    else .ok (0, 0, ch, input)
  match fracRes with
  | .error e => .error e
  | .ok (frac_part, frac_divs, ch1, input1) =>
    let expRes : Except SyntaxErr (Nat × Bool × Option Nat × List Nat) :=
      if ch1 = some 101 ∨ ch1 = some 69 then
        let signErg : Bool × Option Nat × List Nat :=
          match input1 with
          | [] => (false, none, [])
          | c :: rest =>
            if c = 45 then
              match rest with
              | [] => (true, none, [])
              | c2 :: rest2 => (true, some c2, rest2)
            else if c = 43 then
              match rest with
              | [] => (false, none, [])
              | c2 :: rest2 => (false, some c2, rest2)
            else (false, some c, rest)
        match signErg with
        | (exp_negative, ch3, input3) =>
          match ch3 with
          | some c3 =>
            if is_digit c3 then
              match scanExp (to_number c3) input3 with
              | (e, ch4, input4) => .ok (e, exp_negative, ch4, input4)
            else .error ⟨some c3, "number"⟩
          | none => .error ⟨none, "number"⟩
      else .ok (0, false, ch1, input1)
    match expRes with
    | .error e => .error e
    | .ok (exp_part, exp_negative, ch5, input5) =>
      let remaining := unget ch5 input5
      let nv0 : Rat := (int_part : Rat)
      let nv1 : Rat :=
        if frac_part > 0 then nv0 + (frac_part : Rat) * (10 : Rat) ^ (-(frac_divs : Int))
        else nv0
      let nv2 : Rat :=
        if exp_part > 0 then
          nv1 * (10 : Rat) ^ (if exp_negative then -(exp_part : Int) else (exp_part : Int))
        else nv1
      let floatOut : Except SyntaxErr (value × List Nat) :=
        .ok (.flt (.finite (if negative then -nv2 else nv2)), remaining)
      if frac_part = 0 ∧ exp_part = 0 then
        if negative then
          let iv := toI32 (negU64 int_part)
          if toU64 iv = negU64 int_part then .ok (.integer iv, remaining) else floatOut
        else
          let iv := toI32 int_part
          if toU64 iv = int_part then .ok (.integer iv, remaining) else floatOut
      else floatOut

/-- `parser::parse_number`.  `c0` is the dispatch character already
consumed by `parse_value` (always a real character there).  The source's
`for (;;)` around the `[digit|digits]` block runs exactly once — every
branch breaks, returns or throws — and is rendered as a conditional
chain. -/
def parse_number (fl : Flags) (c0 : Nat) (input0 : List Nat) : Except SyntaxErr (value × List Nat) :=
  let signState : Bool × Option Nat × List Nat :=
    if c0 = 45 then
      match input0 with
      | [] => (true, none, [])
      | c :: rest => (true, some c, rest)
    else if fl.explicit_plus_sign ∧ c0 = 43 then
      match input0 with
      | [] => (false, none, [])
      | c :: rest => (false, some c, rest)
    else (false, some c0, input0)
  match signState with
  | (negative, ch, input) =>
    match ch with
    | none => .error ⟨none, "number"⟩
    | some c =>
      if c = 48 then
        match input with
        | [] => parse_number_tail fl negative 0 none []
        | c2 :: rest2 =>
          if fl.hexadecimal ∧ (c2 = 120 ∨ c2 = 88) then
            match scanHex 0 true rest2 with
            | (int_part, noDigit, chh, inputh) =>
              if noDigit then .error ⟨chh, "number"⟩
              else
                .ok (.flt (.finite (if negative then (((-(toI64 int_part) : Int)) : Rat)
                                    else (int_part : Rat))), inputh)
          else parse_number_tail fl negative 0 (some c2) rest2
      else if is_digit c then
        match scanDigits (to_number c) input with
        | (int_part, ch2, input2) => parse_number_tail fl negative int_part ch2 input2
      else if fl.leading_decimal_point ∧ c = 46 then
        parse_number_tail fl negative 0 (some 46) input
      else if fl.infinity_number ∧ c = 105 then
        match eqSeq [110, 102, 105, 110, 105, 116, 121] input with
        | (true, _, rest) => .ok (.flt (.infty negative), rest)
        | (false, chm, _) => .error ⟨chm, "number"⟩
      else if fl.nan_literal ∧ c = 78 then
        match eqSeq [97, 78] input with
        | (true, _, rest) => .ok (.flt .nan, rest)
        | (false, chm, _) => .error ⟨chm, "number"⟩
      else .error ⟨some c, "number"⟩

/-! ## String parsing -/

/-- The UTF-8 re-encoding of one 16-bit code unit (the `buffer.append`
calls of the `\u` escape case): 1 byte below `0x80`, 2 below `0x800`,
3 otherwise; no UTF-16 surrogate-pair assembly. -/
def utf8enc (code : Nat) : List Nat :=
  if code < 0x80 then [code]
  else if code < 0x800 then [0xc0 ||| (code >>> 6), 0x80 ||| (code &&& 0x3f)]
  else [0xe0 ||| (code >>> 12), 0x80 ||| ((code >>> 6) &&& 0x3f), 0x80 ||| (code &&& 0x3f)]

/-- The body loop of `parser::parse_string(std::string&, int, const char*)`:
read characters until the closing quote, handling escapes.  A character
below `0x20` (including end of input, where `get` returns `eof = -1 < 32`)
is a syntax error.  The `for (int i = 0; i < 4; ++i)` hex loop of the
`\u` escape is unrolled into four reads (`code = (code << 4) + n` on
`char16_t`; four hex digits reach at most `0xFFFF`, so the 16-bit cast
never wraps).  In the `\` CR line-continuation case at end of input, the
source ungets nothing and re-enters the loop, whose next `get` returns
`eof < 0x20` and throws: rendered directly as that error.

A fuel counter (first argument) makes the recursion structural — each
iteration consumes at least one character, so the `input.length + 1`
supplied by `parse_string_str` never runs out. -/
def parse_string_loop (fl : Flags) (q : Nat) (ctx : String) :
    Nat → List Nat → List Nat → Except SyntaxErr (List Nat × List Nat)
  | 0, _, _ => .error ⟨none, ctx⟩
  | _ + 1, _, [] => .error ⟨none, ctx⟩
  | fuel + 1, buffer, c :: rest =>
    if c = q then .ok (buffer, rest)
    else if c < 32 then .error ⟨some c, ctx⟩
    else if c = 92 then
      match rest with
      | [] => .error ⟨none, ctx⟩
      | e :: rest2 =>
        if e = 39 then
          if fl.single_quote then parse_string_loop fl q ctx fuel (buffer ++ [39]) rest2
          else .error ⟨some 39, ctx⟩
        else if e = 34 ∨ e = 92 ∨ e = 47 then parse_string_loop fl q ctx fuel (buffer ++ [e]) rest2
        else if e = 98 then parse_string_loop fl q ctx fuel (buffer ++ [8]) rest2
        else if e = 102 then parse_string_loop fl q ctx fuel (buffer ++ [12]) rest2
        else if e = 110 then parse_string_loop fl q ctx fuel (buffer ++ [10]) rest2
        else if e = 114 then parse_string_loop fl q ctx fuel (buffer ++ [13]) rest2
        else if e = 116 then parse_string_loop fl q ctx fuel (buffer ++ [9]) rest2
        else if e = 117 then
          match rest2 with
          | [] => .error ⟨none, ctx⟩
          | h1 :: r1 =>
            match to_number_hex h1 with
            | none => .error ⟨some h1, ctx⟩
            | some n1 =>
              match r1 with
              | [] => .error ⟨none, ctx⟩
              | h2 :: r2 =>
                match to_number_hex h2 with
                | none => .error ⟨some h2, ctx⟩
                | some n2 =>
                  match r2 with
                  | [] => .error ⟨none, ctx⟩
                  | h3 :: r3 =>
                    match to_number_hex h3 with
                    | none => .error ⟨some h3, ctx⟩
                    | some n3 =>
                      match r3 with
                      | [] => .error ⟨none, ctx⟩
                      | h4 :: r4 =>
                        match to_number_hex h4 with
                        | none => .error ⟨some h4, ctx⟩
                        | some n4 =>
                          parse_string_loop fl q ctx fuel
                            (buffer ++ utf8enc (((n1 * 16 + n2) * 16 + n3) * 16 + n4)) r4
        else if e = 13 then
          if fl.multi_line_string then
            match rest2 with
            | [] => .error ⟨none, ctx⟩
            | c2 :: rest3 =>
              if c2 = 10 then parse_string_loop fl q ctx fuel buffer rest3
              else parse_string_loop fl q ctx fuel buffer rest2
          else .error ⟨some 13, ctx⟩
        else if e = 10 then
          if fl.multi_line_string then parse_string_loop fl q ctx fuel buffer rest2
          else .error ⟨some 10, ctx⟩
        else .error ⟨some e, ctx⟩
    else parse_string_loop fl q ctx fuel (buffer ++ [c]) rest

/-- `parser::parse_string(std::string&, int quote, const char* context)`:
the quote-character check, then the body loop on an empty buffer.
`quote` is the character returned by `skip_spaces` at the call site, which
may be the EOF sentinel (in `parse_key`). -/
def parse_string_str (fl : Flags) (quote : Option Nat) (ctx : String)
    (input : List Nat) : Except SyntaxErr (List Nat × List Nat) :=
  match quote with
  | some q =>
    if q = 34 ∨ (fl.single_quote ∧ q = 39) then
      parse_string_loop fl q ctx (input.length + 1) [] input
    else .error ⟨some q, ctx⟩
  | none => .error ⟨none, ctx⟩

/-! ## Literal keywords, object keys -/

/-- `parser::parse_null` (the `n` has been consumed by the dispatch). -/
def parse_null (input : List Nat) : Except SyntaxErr (value × List Nat) :=
  match eqSeq [117, 108, 108] input with
  | (true, _, rest) => .ok (.vnull, rest)
  | (false, chm, _) => .error ⟨chm, "null"⟩

/-- `parser::parse_boolean` (`c` is the dispatched `t` or `f`). -/
def parse_boolean (c : Nat) (input : List Nat) : Except SyntaxErr (value × List Nat) :=
  if c = 116 then
    match eqSeq [114, 117, 101] input with
    | (true, _, rest) => .ok (.boolean true, rest)
    | (false, chm, _) => .error ⟨chm, "boolean"⟩
  else if c = 102 then
    match eqSeq [97, 108, 115, 101] input with
    | (true, _, rest) => .ok (.boolean false, rest)
    | (false, chm, _) => .error ⟨chm, "boolean"⟩
  else .error ⟨some c, "boolean"⟩

/-- The unquoted-identifier loop of `parser::parse_key`
(`for (;; ch = istream.get())`): identifier characters accumulate, a `:`
breaks and is pushed back, anything else is a syntax error.  The loop
examines the character `skip_spaces` returned first, so the caller passes
`unget ch input`. -/
def parse_key_ident (buffer : List Nat) : List Nat → Except SyntaxErr (List Nat × List Nat)
  | [] => .error ⟨none, "object-key"⟩
  | c :: rest =>
    if c = 95 ∨ c = 36 ∨ is_alpha c then parse_key_ident (buffer ++ [c]) rest
    else if is_digit c ∧ buffer ≠ [] then parse_key_ident (buffer ++ [c]) rest
    else if c = 58 then .ok (buffer, c :: rest)
    else .error ⟨some c, "object-key"⟩

/-- `parser::parse_key`: skip spaces; with the unquoted-key flag and a
non-quote character, read an identifier; otherwise fall back to quoted
string parsing. -/
def parse_key (fl : Flags) (input : List Nat) : Except SyntaxErr (List Nat × List Nat) :=
  match skip_spaces fl input with
  | .error e => .error e
  | .ok (ch, input1) =>
    if fl.unquoted_key ∧ ¬(ch = some 34 ∨ ch = some 39) then
      parse_key_ident [] (unget ch input1)
    else parse_string_str fl ch "object-key" input1

/-! ## The object map

`value::object_type` is `std::map<std::string, value>`: modelled as an
association list kept sorted by `keyLt`, the `std::string` ordering
(lexicographic on bytes compared as unsigned chars). -/

/-- `std::string` `operator<`. -/
def keyLt : List Nat → List Nat → Bool
  | [], [] => false
  | [], _ :: _ => true
  | _ :: _, [] => false
  | a :: as, b :: bs => if a < b then true else if a = b then keyLt as bs else false

/-- The net effect of `elements.emplace(key, nullptr)` followed by parsing
into `result.first->second`: insert the key at its sorted position, or
overwrite the value at an existing key (position unchanged). -/
def mapInsert (k : List Nat) (v : value) : List (List Nat × value) → List (List Nat × value)
  | [] => [(k, v)]
  | (k1, v1) :: rest =>
    if keyLt k k1 then (k, v) :: (k1, v1) :: rest
    else if k = k1 then (k, v) :: rest
    else (k1, v1) :: mapInsert k v rest

/-- `std::map::find` (by key equality; equivalent on the sorted lists the
model builds). -/
def mapFind (k : List Nat) : List (List Nat × value) → Option value
  | [] => none
  | (k1, v1) :: rest => if k = k1 then some v1 else mapFind k rest

/-! ## The recursive-descent value parser

`parse_value` / `parse_array` / `parse_object` recurse once per nesting
level; a fuel parameter makes the mutual recursion total.  Fuel is spent
on `parse_value` entries and on collection-loop iterations only, so fuel
`2 * input.length + 2` (the top-level choice) never runs out on any input
a theorem below evaluates. -/

/-- The pending work of the mutually recursive trio `parse_value` /
`parse_array` / `parse_object`: one top-of-loop state per function (the
opening bracket of a collection is consumed by the dispatch, so the loop
states carry the elements accumulated so far). -/
inductive Job where
  | val : String → Job
  | arrLoop : List value → Job
  | objLoop : List (List Nat × value) → Job

/-- The mutual recursion of `parser::parse_value`, `parser::parse_array`
and `parser::parse_object`, combined into one function structurally
recursive on a fuel counter (one unit per `parse_value` entry and per
collection-loop iteration; the C++ recursion is unbounded and the
top-level entry points supply ample fuel).

* `Job.val ctx`: skip spaces and dispatch on the first character, with
  the caller-supplied error label `ctx`;
* `Job.arrLoop elements`: one iteration of the `parse_array` loop —
  `]` ends the collection; the first iteration pushes the character back,
  later ones require `,` (with the trailing-comma special case); then one
  element is parsed and appended;
* `Job.objLoop elements`: one iteration of the `parse_object` loop —
  additionally parses a key, requires `:`, and enters the value into the
  slot `emplace` produced (insert-or-assign). -/
def parseGo (fl : Flags) : Nat → Job → List Nat → Except SyntaxErr (value × List Nat)
  | 0, _, _ => .error ⟨none, "fuel"⟩
  | fuel + 1, .val ctx, input =>
    (match skip_spaces fl input with
    | .error e => .error e
    | .ok (ch, input1) =>
      match ch with
      | none => .error ⟨none, ctx⟩
      | some c =>
        if c = 123 then parseGo fl fuel (.objLoop []) input1
        else if c = 91 then parseGo fl fuel (.arrLoop []) input1
        else if c = 34 ∨ c = 39 then
          match parse_string_str fl (some c) "string" input1 with
          | .error e => .error e
          | .ok (sres, rest) => .ok (.str sres, rest)
        else if c = 110 then parse_null input1
        else if c = 116 ∨ c = 102 then parse_boolean c input1
        else if is_digit c ∨ c = 45 ∨ c = 43 ∨ c = 46 ∨ c = 105 ∨ c = 78 then
          parse_number fl c input1
        else .error ⟨some c, ctx⟩)
  | fuel + 1, .arrLoop elements, input =>
    (match skip_spaces fl input with
    | .error e => .error e
    | .ok (ch, input1) =>
      if ch = some 93 then .ok (.arr elements, input1)
      else
        let pre : Except SyntaxErr ((List Nat) ⊕ (List Nat)) :=
          if elements.isEmpty then .ok (.inr (unget ch input1))
          else if ch ≠ some 44 then .error ⟨ch, "array"⟩
          else if fl.trailing_comma then
            match skip_spaces fl input1 with
            | .error e => .error e
            | .ok (ch2, input2) =>
              if ch2 = some 93 then .ok (.inl input2)
              else .ok (.inr (unget ch2 input2))
          else .ok (.inr input1)
        match pre with
        | .error e => .error e
        | .ok (.inl rest) => .ok (.arr elements, rest)
        | .ok (.inr input2) =>
          match parseGo fl fuel (.val "array") input2 with
          | .error e => .error e
          | .ok (v, rest) => parseGo fl fuel (.arrLoop (elements ++ [v])) rest)
  | fuel + 1, .objLoop elements, input =>
    (match skip_spaces fl input with
    | .error e => .error e
    | .ok (ch, input1) =>
      if ch = some 125 then .ok (.obj elements, input1)
      else
        let pre : Except SyntaxErr ((List Nat) ⊕ (List Nat)) :=
          if elements.isEmpty then .ok (.inr (unget ch input1))
          else if ch ≠ some 44 then .error ⟨ch, "object"⟩
          else if fl.trailing_comma then
            match skip_spaces fl input1 with
            | .error e => .error e
            | .ok (ch2, input2) =>
              if ch2 = some 125 then .ok (.inl input2)
              else .ok (.inr (unget ch2 input2))
          else .ok (.inr input1)
        match pre with
        | .error e => .error e
        | .ok (.inl rest) => .ok (.obj elements, rest)
        | .ok (.inr input2) =>
          match parse_key fl input2 with
          | .error e => .error e
          | .ok (key, rest1) =>
            match skip_spaces fl rest1 with
            | .error e => .error e
            | .ok (ch3, rest3) =>
              if ch3 = some 58 then
                match parseGo fl fuel (.val "object") rest3 with
                | .error e => .error e
                | .ok (v, rest4) => parseGo fl fuel (.objLoop (mapInsert key v elements)) rest4
              else .error ⟨ch3, "object"⟩)

/-- `parser::parse_value` (entry with a context label). -/
def parse_value (fl : Flags) (fuel : Nat) (ctx : String) (input : List Nat) :
    Except SyntaxErr (value × List Nat) :=
  parseGo fl fuel (.val ctx) input

/-- `parser::do_parse`: parse one value; in finished mode require that
only whitespace/comments remain. -/
def do_parse (fl : Flags) (finishedMode : Bool) (fuel : Nat) (input : List Nat) :
    Except SyntaxErr (value × List Nat) :=
  match parse_value fl fuel "value" input with
  | .error e => .error e
  | .ok (v, rest) =>
    if finishedMode then
      match skip_spaces fl rest with
      | .error e => .error e
      | .ok (none, rest2) => .ok (v, rest2)
      | .ok (some c, _) => .error ⟨some c, "value"⟩
    else .ok (v, rest)

/-- Fuel supplied by the top-level entry points. -/
def topFuel (input : List Nat) : Nat := 2 * input.length + 2

/-- `json5pp::parse(const std::string&)`: strict grammar, finished mode. -/
def parse (input : List Nat) : Except SyntaxErr value :=
  (do_parse ecma404 true (topFuel input) input).map (fun p => p.1)

/-- `json5pp::parse(istream, false)`: strict grammar, streaming mode —
the remaining input is part of the result. -/
def parseStream (input : List Nat) : Except SyntaxErr (value × List Nat) :=
  do_parse ecma404 false (topFuel input) input

/-- `json5pp::parse5(const std::string&)`: JSON5 grammar, finished mode. -/
def parse5 (input : List Nat) : Except SyntaxErr value :=
  (do_parse json5 true (topFuel input) input).map (fun p => p.1)

/-- `json5pp::parse5(istream, false)`: JSON5 grammar, streaming mode. -/
def parse5Stream (input : List Nat) : Except SyntaxErr (value × List Nat) :=
  do_parse json5 false (topFuel input) input

/-! ## Stringifier

`impl::stringifier<F, I>`: flags restricted by `stringify_mask` to
`infinity_number | not_a_number | crlf_newline`; indent `I` is an `int8_t`
(positive = spaces, negative = tabs, zero = compact). -/

/-- The stringify-relevant flags. -/
structure SFlags where
  infinity_number : Bool
  nan_literal : Bool   -- not_a_number
  crlf : Bool          -- crlf_newline
deriving DecidableEq

/-- `stringifier::get_newline`. -/
def get_newline (sf : SFlags) : List Nat := if sf.crlf then [13, 10] else [10]

/-- `stringifier::get_indent`: one indent unit. -/
def get_indent (i : Int) : List Nat :=
  if 0 < i then List.replicate i.toNat 32
  else if i < 0 then List.replicate (-i).toNat 9
  else []

/-- Decimal digits of a natural number (the digit emission of
`ostream << int`); the fuel argument makes the division recursion
structural and `n + 1` digits always suffice. -/
def natDecimalAux : Nat → Nat → List Nat
  | 0, _ => []
  | f + 1, n => if n < 10 then [48 + n] else natDecimalAux f (n / 10) ++ [48 + n % 10]

/-- Decimal digits of a natural number. -/
def natDecimal (n : Nat) : List Nat := natDecimalAux (n + 1) n

/-- `ostream << (int)`: standard decimal text, `-` prefix when negative. -/
def intToDecimal (n : Int) : List Nat :=
  if n < 0 then 45 :: natDecimal n.natAbs else natDecimal n.toNat

/-- Modelled from the spec: the finite-`double` case of the numeric
emission is `ostream << arg` — "the platform's default decimal text
representation of the number", C++ standard-library formatting outside
this repository.  Rendered here as exact decimal digits for integral
values and as `num/den` otherwise; no theorem in this development
evaluates or depends on this function. -/
def renderFinite (q : Rat) : List Nat :=
  if q.den = 1 then intToDecimal q.num
  else intToDecimal q.num ++ [47] ++ natDecimal q.den

/-- The lowercase hex digits `"0123456789abcdef"` of
`stringifier::stringify_string`. -/
def hexDigitChar (n : Nat) : Nat := if n < 10 then 48 + n else 87 + n

/-- One byte of `stringifier::stringify_string`: the named escapes, the
`\u00XX` form for other bytes below `0x20`, everything else verbatim. -/
def escByte (b : Nat) : List Nat :=
  if b = 34 then [92, 34]
  else if b = 92 then [92, 92]
  else if b = 8 then [92, 98]
  else if b = 12 then [92, 102]
  else if b = 10 then [92, 110]
  else if b = 13 then [92, 114]
  else if b = 9 then [92, 116]
  else if b < 32 then [92, 117, 48, 48, hexDigitChar (b / 16), hexDigitChar (b % 16)]
  else [b]

/-- `stringifier::stringify_string`. -/
def stringify_string (sv : List Nat) : List Nat := 34 :: (sv.map escByte).flatten ++ [34]

mutual
/-- `stringifier::stringify_value`: per-node-kind emission.  `indent` is
the accumulated indent string (`""` at the top level). -/
def stringify_value (sf : SFlags) (i : Int) (v : value) (indent : List Nat) : List Nat :=
  match v with
  | .vnull => [110, 117, 108, 108]
  | .boolean b => if b then [116, 114, 117, 101] else [102, 97, 108, 115, 101]
  | .integer n => intToDecimal n
  | .flt f =>
    match f with
    | .nan => if sf.nan_literal then [78, 97, 78] else [110, 117, 108, 108]
    | .infty neg =>
      if sf.infinity_number then
        if neg then 45 :: [105, 110, 102, 105, 110, 105, 116, 121]
        else [105, 110, 102, 105, 110, 105, 116, 121]
      else [110, 117, 108, 108]
    | .finite qv => renderFinite qv
  | .str sv => stringify_string sv
  | .arr items =>
    if items.isEmpty then [91, 93]
    else if i = 0 then [91] ++ stringify_items_compact sf i indent items ++ [93]
    else
      [91] ++ stringify_items_indent sf i (indent ++ get_indent i) items ++
        get_newline sf ++ indent ++ [93]
  | .obj kvs =>
    if kvs.isEmpty then [123, 125]
    else if i = 0 then [123] ++ stringify_members_compact sf i indent kvs ++ [125]
    else
      [123] ++ stringify_members_indent sf i (indent ++ get_indent i) kvs ++
        get_newline sf ++ indent ++ [125]

/-- The compact (`I == 0`) array loop: elements comma-joined (the `delim`
pattern of the source, with the brackets emitted by the caller). -/
def stringify_items_compact (sf : SFlags) (i : Int) (indent : List Nat) :
    List value → List Nat
  | [] => []
  | v :: rest =>
    stringify_value sf i v indent ++
      (if rest.isEmpty then [] else 44 :: stringify_items_compact sf i indent rest)

/-- The indented array loop: each element preceded by a newline and the
inner indent. -/
def stringify_items_indent (sf : SFlags) (i : Int) (inner : List Nat) :
    List value → List Nat
  | [] => []
  | v :: rest =>
    get_newline sf ++ inner ++ stringify_value sf i v inner ++
      (if rest.isEmpty then [] else 44 :: stringify_items_indent sf i inner rest)

/-- The compact object loop: `key:value` pairs comma-joined (no space
after the colon). -/
def stringify_members_compact (sf : SFlags) (i : Int) (indent : List Nat) :
    List (List Nat × value) → List Nat
  | [] => []
  | (k, v) :: rest =>
    stringify_string k ++ [58] ++ stringify_value sf i v indent ++
      (if rest.isEmpty then [] else 44 :: stringify_members_compact sf i indent rest)

/-- The indented object loop: newline, inner indent, key, `": "`, value. -/
def stringify_members_indent (sf : SFlags) (i : Int) (inner : List Nat) :
    List (List Nat × value) → List Nat
  | [] => []
  | (k, v) :: rest =>
    get_newline sf ++ inner ++ stringify_string k ++ [58, 32] ++ stringify_value sf i v inner ++
      (if rest.isEmpty then [] else 44 :: stringify_members_indent sf i inner rest)
end

/-- `json5pp::stringify(v)`: strict output preset (`rule::ecma404` masked
to the stringify flags: NaN/Infinity literals disabled), no indent. -/
def stringify (v : value) : List Nat := stringify_value ⟨false, false, false⟩ 0 v []

/-- `json5pp::stringify5(v)`: JSON5 output preset (`rule::json5` masked to
the stringify flags: NaN/Infinity literals enabled), no indent. -/
def stringify5 (v : value) : List Nat := stringify_value ⟨true, true, false⟩ 0 v []

/-! ## The C++ equality on values

`operator==(const value&, const value&)` compares the `std::variant`
contents; for the `double` alternative this is the IEEE comparison, under
which NaN is unequal to everything — including itself. -/

/-- `double` `operator==` on the idealized payload. -/
def FloatVal.cppEq : FloatVal → FloatVal → Bool
  | .finite a, .finite b => a == b
  | .infty a, .infty b => a == b
  | _, _ => false

/-- `operator==` on values (variant equality; containers element-wise). -/
def value.cppEq : value → value → Bool
  | .vnull, .vnull => true
  | .boolean a, .boolean b => a == b
  | .integer a, .integer b => a == b
  | .flt a, .flt b => FloatVal.cppEq a b
  | .str a, .str b => a == b
  | .arr a, .arr b => cppEqList a b
  | .obj a, .obj b => cppEqObj a b
  | _, _ => false
where
  cppEqList : List value → List value → Bool
    | [], [] => true
    | x :: xs, y :: ys => value.cppEq x y && cppEqList xs ys
    | _, _ => false
  cppEqObj : List (List Nat × value) → List (List Nat × value) → Bool
    | [], [] => true
    | (k, x) :: xs, (l, y) :: ys => k == l && value.cppEq x y && cppEqObj xs ys
    | _, _ => false

/-! ## Accessors and type tests -/

/-- `value::is_integer` (the `int` / `long` alternatives; the model folds
both into `integer`). -/
def value.is_integer : value → Bool
  | .integer _ => true
  | _ => false

/-- Whether the active case is the floating (`double` / `float`)
alternative — the spec's `Float` case. -/
def value.is_float : value → Bool
  | .flt _ => true
  | _ => false

/-- `value::is_array`. -/
def value.is_array : value → Bool
  | .arr _ => true
  | _ => false

/-- `value::is_object`. -/
def value.is_object : value → Bool
  | .obj _ => true
  | _ => false

/-- `value::at(const int index)` / `operator[](int)`: the no-default array
indexer.  The defaulted overload returns `default_value` unless the value
is an array and `0 <= index && index < (int)ar.size()`; the no-default
overload passes a `null` default. -/
def value.at_index (v : value) (i : Int) : value :=
  match v with
  | .arr ar => if 0 ≤ i ∧ i < (ar.length : Int) then ar.getD i.toNat .vnull else .vnull
  | _ => .vnull

/-- `value::at(const string&)` / `operator[]`: the no-default object
indexer — `null` unless the value is an object whose map contains the
key. -/
def value.at_key (v : value) (k : List Nat) : value :=
  match v with
  | .obj kvs =>
    match mapFind k kvs with
    | some w => w
    | none => .vnull
  | _ => .vnull

/-! ## Structural predicates used by the theorems -/

mutual
/-- Every object node lists its keys in strictly ascending `keyLt` order
(adjacent pairs suffice; `keyLt` is transitive).  This is the invariant
`std::map` maintains by construction; values built by hand in the model
can violate it, values reachable in C++ cannot. -/
def value.sortedObjs : value → Bool
  | .vnull => true
  | .boolean _ => true
  | .integer _ => true
  | .flt _ => true
  | .str _ => true
  | .arr vs => value.sortedObjsList vs
  | .obj kvs => value.sortedObjsMembers kvs

def value.sortedObjsList : List value → Bool
  | [] => true
  | v :: vs => value.sortedObjs v && value.sortedObjsList vs

def value.sortedObjsMembers : List (List Nat × value) → Bool
  | [] => true
  | (k, v) :: rest =>
    value.sortedObjs v &&
      (match rest with
       | [] => true
       | (k2, _) :: _ => keyLt k k2) &&
      value.sortedObjsMembers rest
end

mutual
/-- No floating (`double`) leaf anywhere. -/
def value.noFloat : value → Bool
  | .vnull => true
  | .boolean _ => true
  | .integer _ => true
  | .flt _ => false
  | .str _ => true
  | .arr vs => value.noFloatList vs
  | .obj kvs => value.noFloatMembers kvs

def value.noFloatList : List value → Bool
  | [] => true
  | v :: vs => value.noFloat v && value.noFloatList vs

def value.noFloatMembers : List (List Nat × value) → Bool
  | [] => true
  | (_, v) :: rest => value.noFloat v && value.noFloatMembers rest
end

mutual
/-- The representability constraints of the C++ tree: integers fit the
platform `int`, string and key bytes are actual bytes. -/
def value.reprOk : value → Bool
  | .vnull => true
  | .boolean _ => true
  | .integer n => decide (-(2 ^ 31 : Int) ≤ n ∧ n < 2 ^ 31)
  | .flt _ => true
  | .str sv => sv.all (· < 256)
  | .arr vs => value.reprOkList vs
  | .obj kvs => value.reprOkMembers kvs

def value.reprOkList : List value → Bool
  | [] => true
  | v :: vs => value.reprOk v && value.reprOkList vs

def value.reprOkMembers : List (List Nat × value) → Bool
  | [] => true
  | (k, v) :: rest => k.all (· < 256) && value.reprOk v && value.reprOkMembers rest
end

/-! ## Helper definitions for the theorem statements -/

/-- Byte values of an ASCII string literal (test-input shorthand). -/
def bytesOf (s : String) : List Nat := s.toList.map Char.toNat

/-- The decimal accumulation `int_part = int_part * 10 + digit` over a
digit list (wrapping `unsigned long long` arithmetic). -/
def decAcc (acc : Nat) (ds : List Nat) : Nat :=
  ds.foldl (fun a d => (a * 10 + to_number d) % 2 ^ 64) acc

/-- The hex accumulation `int_part = (int_part << 4) | digit` over a
hex-digit list. -/
def hexAcc (acc : Nat) (hs : List Nat) : Nat :=
  hs.foldl (fun a h => (a * 16 + (to_number_hex h).getD 0) % 2 ^ 64) acc

/-- A continuation on which a numeric literal ends cleanly: empty, or
starting with a character that neither extends the number scan (digit,
`.`, `e`, `E`) nor opens a hex prefix after a lone `0` (`x`, `X`). -/
def restOk (rest : List Nat) : Bool :=
  match rest with
  | [] => true
  | r :: _ => !(is_digit r || r = 46 || r = 101 || r = 69 || r = 120 || r = 88)

/-- Compact rendering of the second and later array elements: each
prefixed by `,`. -/
def sepItems (vs : List value) : List Nat := (vs.map (fun v => 44 :: stringify v)).flatten

/-- Compact rendering of one object member, `"key":value`. -/
def memberText (k : List Nat) (v : value) : List Nat := stringify_string k ++ 58 :: stringify v

/-- Compact rendering of the second and later object members. -/
def sepMembers (kvs : List (List Nat × value)) : List Nat :=
  (kvs.map (fun kv => 44 :: memberText kv.1 kv.2)).flatten

/-- Compact object text over an arbitrary member list — the keys need not
be distinct or sorted, unlike `stringify` output. -/
def renderObject (kvs : List (List Nat × value)) : List Nat :=
  [123] ++ (match kvs with
            | [] => []
            | kv :: rest => memberText kv.1 kv.2 ++ sepMembers rest) ++ [125]

mutual
/-- Fuel sufficient for `parseGo` to parse `stringify v`: one unit per
`parse_value` entry and one per collection-loop iteration. -/
def parseFuel : value → Nat
  | .arr vs => 2 + vs.length + parseFuelList vs
  | .obj kvs => 2 + kvs.length + parseFuelMembers kvs
  | _ => 1

/-- Sum of element fuels. -/
def parseFuelList : List value → Nat
  | [] => 0
  | v :: vs => parseFuel v + parseFuelList vs

/-- Sum of member fuels. -/
def parseFuelMembers : List (List Nat × value) → Nat
  | [] => 0
  | (_, v) :: rest => parseFuel v + parseFuelMembers rest
end

/-- The integer/float decision of `parse_number` for a literal whose
fractional and exponent accumulators are both zero (the
`frac_part == 0 && exp_part == 0` path): narrow the (possibly negated)
accumulator to `int`; emit the `Integer` case when the value round-trips
through the narrowing, the floating fallback otherwise. -/
def decimalResult (neg : Bool) (acc : Nat) (rest : List Nat) : Except SyntaxErr (value × List Nat) :=
  let u := if neg then negU64 acc else acc
  let iv := toI32 u
  if toU64 iv = u then .ok (.integer iv, rest)
  else .ok (.flt (.finite (if neg then -(acc : Rat) else (acc : Rat))), rest)


/-- Plain (non-wrapping) decimal accumulation, for relating `decAcc` to
the numeric value of a digit string. -/
def decPlain (acc : Nat) (ds : List Nat) : Nat :=
  ds.foldl (fun a d => a * 10 + to_number d) acc


/-! # Theorems -/

/-! ## General lemmas -/

theorem skip_spaces_cons {fl : Flags} {c : Nat} {rest : List Nat}
    (h1 : isSpace c = false) (h2 : c ≠ 47) :
    skip_spaces fl (c :: rest) = .ok (some c, rest) := by
  unfold skip_spaces skipSpacesGo
  simp [h1, h2]

theorem eqSeq_append (es rest : List Nat) : eqSeq es (es ++ rest) = (true, none, rest) := by
  induction es with
  | nil => rfl
  | cons e es ih => simp [eqSeq, ih]

theorem toI32_bounds (n : Nat) : -(2 ^ 31) ≤ toI32 n ∧ toI32 n < 2 ^ 31 := by
  unfold toI32
  split <;> omega

theorem or128 : ∀ a, a < 64 → 128 ||| a = 128 + a := by decide

theorem or192 : ∀ a, a < 32 → 192 ||| a = 192 + a := by decide

theorem or224 : ∀ a, a < 16 → 224 ||| a = 224 + a := by decide

/-! ## Claim C10 -/

/-- C10: the no-default indexers are total and never throw: `at(i)` /
`[i]` returns the stored element when the value is an array and
`0 <= i < size`, and null otherwise (non-array receiver, negative index,
out of range); `at(k)` / `[k]` returns the mapped value when an object
contains the key and null otherwise.  These are `const` reads, modelled
as pure functions, so the receiver is unchanged. -/
theorem C10_default_access_total :
    (∀ (v : value) (i : Int), v.is_array = false → v.at_index i = .vnull) ∧
    (∀ (v : value) (i : Int), i < 0 → v.at_index i = .vnull) ∧
    (∀ (ar : List value) (i : Int), (ar.length : Int) ≤ i → (value.arr ar).at_index i = .vnull) ∧
    (∀ (ar : List value) (i : Nat), i < ar.length →
      (value.arr ar).at_index (i : Int) = ar.getD i .vnull) ∧
    (∀ (v : value) (k : List Nat), v.is_object = false → v.at_key k = .vnull) ∧
    (∀ (kvs : List (List Nat × value)) (k : List Nat),
      mapFind k kvs = none → (value.obj kvs).at_key k = .vnull) ∧
    (∀ (kvs : List (List Nat × value)) (k : List Nat) (w : value),
      mapFind k kvs = some w → (value.obj kvs).at_key k = w) := by
  refine ⟨?_, ?_, ?_, ?_, ?_, ?_, ?_⟩
  · intro v i h
    cases v <;> simp [value.at_index] <;> simp [value.is_array] at h
  · intro v i h
    cases v <;> simp [value.at_index]
    intro h0
    omega
  · intro ar i h
    simp [value.at_index]
    intro h0
    omega
  · intro ar i h
    simp only [value.at_index]
    rw [if_pos]
    · simp
    · constructor
      · exact Int.natCast_nonneg i
      · exact_mod_cast h
  · intro v k h
    cases v <;> simp [value.at_key] <;> simp [value.is_object] at h
  · intro kvs k h
    simp [value.at_key, h]
  · intro kvs k w h
    simp [value.at_key, h]

theorem C10_witness :
    (value.integer 3).at_index 0 = .vnull ∧
    (value.arr [.integer 7]).at_index (-1) = .vnull ∧
    (value.arr [.integer 7]).at_index 1 = .vnull ∧
    (value.arr [.integer 7]).at_index 0 = .integer 7 ∧
    (value.boolean true).at_key [97] = .vnull ∧
    (value.obj [([97], .integer 5)]).at_key [98] = .vnull ∧
    (value.obj [([97], .integer 5)]).at_key [97] = .integer 5 :=
  ⟨C10_default_access_total.1 (value.integer 3) 0 (by decide),
   C10_default_access_total.2.1 (value.arr [.integer 7]) (-1) (by decide),
   C10_default_access_total.2.2.1 [.integer 7] 1 (by decide),
   C10_default_access_total.2.2.2.1 [.integer 7] 0 (by decide),
   C10_default_access_total.2.2.2.2.1 (value.boolean true) [97] (by decide),
   C10_default_access_total.2.2.2.2.2.1 [([97], .integer 5)] [98] (by decide),
   C10_default_access_total.2.2.2.2.2.2 [([97], .integer 5)] [97] (.integer 5) (by decide)⟩

/-! ## Claim C8 -/

/-- C8: a `\uXXXX` escape reads exactly four hex digits into a 16-bit
code unit and re-encodes it directly as UTF-8 — below `0x80` one byte,
below `0x800` two bytes (`0xc0 | c>>6`, `0x80 | (c & 0x3f)`), otherwise
three — each escape independently, with no UTF-16 surrogate-pair
assembly; in particular `parse("\"\\u00e9\"")` yields the two-byte UTF-8
encoding of U+00E9, and a surrogate-pair escape sequence yields the two
3-byte encodings of the individual code units. -/
theorem C8_unicode_escape :
    (∀ (fl : Flags) (q : Nat) (ctx : String) (fuel : Nat) (buffer : List Nat)
       (h1 h2 h3 h4 n1 n2 n3 n4 : Nat) (rest : List Nat),
      q ≠ 92 →
      to_number_hex h1 = some n1 → to_number_hex h2 = some n2 →
      to_number_hex h3 = some n3 → to_number_hex h4 = some n4 →
      parse_string_loop fl q ctx (fuel + 1) buffer (92 :: 117 :: h1 :: h2 :: h3 :: h4 :: rest)
        = parse_string_loop fl q ctx fuel
            (buffer ++ utf8enc (((n1 * 16 + n2) * 16 + n3) * 16 + n4)) rest) ∧
    (∀ code, code < 128 → utf8enc code = [code]) ∧
    (∀ code, 128 ≤ code → code < 2048 →
      utf8enc code = [192 + code / 64, 128 + code % 64]) ∧
    (∀ code, 2048 ≤ code → code < 65536 →
      utf8enc code = [224 + code / 4096, 128 + code / 64 % 64, 128 + code % 64]) ∧
    parse (bytesOf "\"\\u00e9\"") = .ok (.str [195, 169]) ∧
    parse (bytesOf "\"\\ud83d\\ude00\"") = .ok (.str [237, 160, 189, 237, 184, 128]) := by
  refine ⟨?_, ?_, ?_, ?_, by decide, by decide⟩
  · intro fl q ctx fuel buffer h1 h2 h3 h4 n1 n2 n3 n4 rest hq hx1 hx2 hx3 hx4
    have h92 : ¬((92 : Nat) = q) := fun h => hq h.symm
    simp [parse_string_loop, h92, hx1, hx2, hx3, hx4]
  · intro code h
    simp [utf8enc, h]
  · intro code h1 h2
    have e1 : code >>> 6 = code / 64 := Nat.shiftRight_eq_div_pow code 6
    have e2 : code &&& 63 = code % 64 := Nat.and_pow_two_sub_one_eq_mod code 6
    have b1 : code / 64 < 32 := by omega
    have b2 : code % 64 < 64 := by omega
    simp only [utf8enc, e1, e2]
    rw [if_neg (by omega), if_pos h2, or192 _ b1, or128 _ b2]
  · intro code h1 h2
    have e1 : code >>> 12 = code / 4096 := Nat.shiftRight_eq_div_pow code 12
    have e2 : code >>> 6 = code / 64 := Nat.shiftRight_eq_div_pow code 6
    have e3 : code &&& 63 = code % 64 := Nat.and_pow_two_sub_one_eq_mod code 6
    have e4 : code / 64 &&& 63 = code / 64 % 64 := Nat.and_pow_two_sub_one_eq_mod _ 6
    have b1 : code / 4096 < 16 := by omega
    simp only [utf8enc, e1, e2, e3, e4]
    rw [if_neg (by omega), if_neg (by omega), or224 _ b1, or128 _ (by omega),
      or128 _ (by omega)]

theorem C8_witness :
    parse_string_loop ecma404 34 "string" 1 [] [92, 117, 48, 48, 101, 57, 34]
        = parse_string_loop ecma404 34 "string" 0 (utf8enc 233) [34] ∧
    utf8enc 97 = [97] ∧
    utf8enc 233 = [195, 169] ∧
    utf8enc 55357 = [237, 160, 189] :=
  ⟨by
    have h := C8_unicode_escape.1 ecma404 34 "string" 0 [] 48 48 101 57 0 0 14 9 [34]
      (by decide) (by decide) (by decide) (by decide) (by decide)
    simpa using h,
   C8_unicode_escape.2.1 97 (by decide),
   by
    have h := C8_unicode_escape.2.2.1 233 (by decide) (by decide)
    simpa using h,
   by
    have h := C8_unicode_escape.2.2.2.1 55357 (by decide) (by decide)
    simpa using h⟩

/-! ## Claim C3 -/

theorem skip_spaces_ws {fl : Flags} :
    ∀ {ws t : List Nat}, (∀ x ∈ ws, isSpace x = true) →
      skip_spaces fl (ws ++ t) = skip_spaces fl t := by
  intro ws
  induction ws with
  | nil => intro t _; rfl
  | cons w ws ih =>
    intro t h
    have hw : isSpace w = true := h w (by simp)
    show skipSpacesGo fl .scan (w :: (ws ++ t)) = _
    unfold skipSpacesGo
    simp only [hw, if_pos]
    exact ih (fun x hx => h x (by simp [hx]))

theorem skipSpacesGo_line_cons {fl : Flags} {c : Nat} {rest : List Nat} :
    skipSpacesGo fl .line (c :: rest) =
      if c = 13 ∨ c = 10 then skipSpacesGo fl .scan rest else skipSpacesGo fl .line rest := rfl

theorem skip_line_body {fl : Flags} :
    ∀ {body rest : List Nat}, (∀ x ∈ body, x ≠ 13 ∧ x ≠ 10) →
      skipSpacesGo fl .line (body ++ 10 :: rest) = skipSpacesGo fl .scan rest := by
  intro body
  induction body with
  | nil =>
    intro rest _
    rw [List.nil_append, skipSpacesGo_line_cons, if_pos (by simp)]
  | cons b body ih =>
    intro rest h
    have hb := h b (by simp)
    rw [List.cons_append, skipSpacesGo_line_cons, if_neg (by simp [hb.1, hb.2])]
    exact ih (fun x hx => h x (by simp [hx]))

/-- C3, counterexample to the claim as stated: with both comment flags
enabled and input `"/a"`, the first non-space, non-comment character of
the input is the `/` itself (it opens no comment), yet `skip_spaces`
returns the character after it, having consumed both. -/
theorem C3_counterexample :
    skip_spaces json5 [47, 97] = .ok (some 97, []) ∧ (47 : Nat) ≠ 97 :=
  ⟨by decide, by decide⟩

/-- C3 (amended): `skip_spaces` consumes tab/newline/carriage-return/space
and enabled comments and returns the first other character without
consuming anything beyond it — except that when a comment flag is enabled
and a `/` does not begin a valid comment, the `/` is consumed too and the
character immediately after it is returned.  With comment flags disabled a
`/` is returned like any other character; a single-line comment body is
consumed through its terminating newline; an all-whitespace input returns
the end-of-input sentinel. -/
theorem C3_skip_spaces_amended :
    (∀ (fl : Flags) (ws : List Nat) (c : Nat) (rest : List Nat),
      (∀ x ∈ ws, isSpace x = true) → isSpace c = false → c ≠ 47 →
      skip_spaces fl (ws ++ c :: rest) = .ok (some c, rest)) ∧
    (∀ (fl : Flags) (ws rest : List Nat),
      fl.slc = false → fl.mlc = false → (∀ x ∈ ws, isSpace x = true) →
      skip_spaces fl (ws ++ 47 :: rest) = .ok (some 47, rest)) ∧
    (∀ (fl : Flags) (ws : List Nat) (d : Nat) (rest : List Nat),
      (fl.slc = true ∨ fl.mlc = true) → (∀ x ∈ ws, isSpace x = true) →
      ¬(fl.slc = true ∧ d = 47) → ¬(fl.mlc = true ∧ d = 42) →
      skip_spaces fl (ws ++ 47 :: d :: rest) = .ok (some d, rest)) ∧
    (∀ (fl : Flags) (body rest : List Nat), fl.slc = true →
      (∀ x ∈ body, x ≠ 13 ∧ x ≠ 10) →
      skip_spaces fl (47 :: 47 :: (body ++ 10 :: rest)) = skip_spaces fl rest) ∧
    skip_spaces json5 (bytesOf "/* c */ x") = .ok (some 120, []) ∧
    (∀ (fl : Flags) (ws : List Nat), (∀ x ∈ ws, isSpace x = true) →
      skip_spaces fl ws = .ok (none, [])) := by
  refine ⟨?_, ?_, ?_, ?_, by decide, ?_⟩
  · intro fl ws c rest hws hc h47
    rw [skip_spaces_ws hws]
    exact skip_spaces_cons hc h47
  · intro fl ws rest hs hm hws
    rw [skip_spaces_ws hws]
    show skipSpacesGo fl .scan (47 :: rest) = _
    unfold skipSpacesGo
    simp [hs, hm, isSpace]
  · intro fl ws d rest hfl hws hnd hnb
    rw [skip_spaces_ws hws]
    show skipSpacesGo fl .scan (47 :: d :: rest) = _
    unfold skipSpacesGo
    have : (47 : Nat) = 47 ∧ (fl.slc = true ∨ fl.mlc = true) := ⟨rfl, hfl⟩
    simp only [isSpace]
    simp [hfl, hnd, hnb]
  · intro fl body rest hs hbody
    show skipSpacesGo fl .scan (47 :: 47 :: (body ++ 10 :: rest)) = _
    unfold skipSpacesGo
    simp [hs, isSpace]
    exact skip_line_body hbody
  · intro fl ws hws
    have := @skip_spaces_ws fl ws [] hws
    simp at this
    rw [this]
    rfl

theorem C3_witness :
    skip_spaces json5 [9, 32, 120, 121] = .ok (some 120, [121]) ∧
    skip_spaces ecma404 [32, 47, 98] = .ok (some 47, [98]) ∧
    skip_spaces json5 [32, 47, 48, 99] = .ok (some 48, [99]) ∧
    skip_spaces json5 [47, 47, 104, 10, 122] = skip_spaces json5 [122] ∧
    skip_spaces ecma404 [9, 10, 13, 32] = .ok (none, []) :=
  ⟨C3_skip_spaces_amended.1 json5 [9, 32] 120 [121] (by decide) (by decide) (by decide),
   C3_skip_spaces_amended.2.1 ecma404 [32] [98] (by decide) (by decide) (by decide),
   C3_skip_spaces_amended.2.2.1 json5 [32] 48 [99] (by decide) (by decide) (by decide)
     (by decide),
   C3_skip_spaces_amended.2.2.2.1 json5 [104] [122] (by decide) (by decide),
   C3_skip_spaces_amended.2.2.2.2.2 ecma404 [9, 10, 13, 32] (by decide)⟩

/-! ## Claim C6 -/

/-- C6: finished versus streaming mode.  Streaming (`finished=false`)
stops right after the single value and leaves the rest untouched —
parsing `"1 2"` consumes only `"1"` and leaves `" 2"`.  Finished mode
runs the same value parse and then requires that only whitespace/comments
remain, failing with a syntax error (offending character, context
`"value"`) otherwise. -/
theorem C6_finished_vs_streaming :
    parseStream (bytesOf "1 2") = .ok (.integer 1, [32, 50]) ∧
    parse (bytesOf "1 2") = .error ⟨some 50, "value"⟩ ∧
    (∀ (fl : Flags) (fuel : Nat) (input : List Nat) (v : value) (rest rest2 : List Nat),
      do_parse fl false fuel input = .ok (v, rest) →
      skip_spaces fl rest = .ok (none, rest2) →
      do_parse fl true fuel input = .ok (v, rest2)) ∧
    (∀ (fl : Flags) (fuel : Nat) (input : List Nat) (v : value) (rest : List Nat)
       (c : Nat) (rest2 : List Nat),
      do_parse fl false fuel input = .ok (v, rest) →
      skip_spaces fl rest = .ok (some c, rest2) →
      do_parse fl true fuel input = .error ⟨some c, "value"⟩) ∧
    (∀ (fl : Flags) (fuel : Nat) (input : List Nat) (e : SyntaxErr),
      do_parse fl false fuel input = .error e →
      do_parse fl true fuel input = .error e) := by
  refine ⟨by decide, by decide, ?_, ?_, ?_⟩
  · intro fl fuel input v rest rest2 h1 h2
    unfold do_parse at h1 ⊢
    cases hpv : parse_value fl fuel "value" input with
    | error e => rw [hpv] at h1; simp at h1
    | ok p =>
      obtain ⟨pv, pr⟩ := p
      rw [hpv] at h1
      simp at h1
      obtain ⟨ha, hb⟩ := h1
      subst ha
      subst hb
      simp [h2]
  · intro fl fuel input v rest c rest2 h1 h2
    unfold do_parse at h1 ⊢
    cases hpv : parse_value fl fuel "value" input with
    | error e => rw [hpv] at h1; simp at h1
    | ok p =>
      obtain ⟨pv, pr⟩ := p
      rw [hpv] at h1
      simp at h1
      obtain ⟨ha, hb⟩ := h1
      subst ha
      subst hb
      simp [h2]
  · intro fl fuel input e h1
    unfold do_parse at h1 ⊢
    cases hpv : parse_value fl fuel "value" input with
    | error e2 =>
      rw [hpv] at h1
      simpa using h1
    | ok p =>
      obtain ⟨pv, pr⟩ := p
      rw [hpv] at h1
      simp at h1

theorem C6_witness :
    do_parse ecma404 true 4 [49] = .ok (.integer 1, []) ∧
    do_parse ecma404 true 4 [49, 32, 50] = .error ⟨some 50, "value"⟩ ∧
    do_parse ecma404 true 4 [44] = .error ⟨some 44, "value"⟩ :=
  ⟨C6_finished_vs_streaming.2.2.1 ecma404 4 [49] (.integer 1) [] [] (by decide) (by decide),
   C6_finished_vs_streaming.2.2.2.1 ecma404 4 [49, 32, 50] (.integer 1) [32, 50] 50 []
     (by decide) (by decide),
   C6_finished_vs_streaming.2.2.2.2 ecma404 4 [44] ⟨some 44, "value"⟩ (by decide)⟩

/-! ## Number-parsing lemmas -/

theorem unget_head_tail (rest : List Nat) : unget rest.head? rest.tail = rest := by
  cases rest <;> rfl

theorem scanDigits_append :
    ∀ (ds : List Nat) (acc : Nat) (rest : List Nat),
      (∀ d ∈ ds, is_digit d = true) →
      (∀ r rs, rest = r :: rs → is_digit r = false) →
      scanDigits acc (ds ++ rest) = (decAcc acc ds, rest.head?, rest.tail) := by
  intro ds
  induction ds with
  | nil =>
    intro acc rest _ hrest
    cases rest with
    | nil => rfl
    | cons r rs => simp [scanDigits, hrest r rs rfl, decAcc]
  | cons d ds ih =>
    intro acc rest hds hrest
    have hd : is_digit d = true := hds d (by simp)
    show scanDigits acc (d :: (ds ++ rest)) = _
    rw [scanDigits]
    simp only [hd, if_true]
    rw [ih _ rest (fun x hx => hds x (by simp [hx])) hrest]
    simp [decAcc]

theorem restOk_facts {r : Nat} {rs : List Nat} (h : restOk (r :: rs) = true) :
    is_digit r = false ∧ r ≠ 46 ∧ r ≠ 101 ∧ r ≠ 69 ∧ r ≠ 120 ∧ r ≠ 88 := by
  revert h
  simp [restOk]
  tauto

theorem parse_number_tail_clean {fl : Flags} {neg : Bool} {ip : Nat} {rest : List Nat}
    (hrest : restOk rest = true) :
    ∀ ch, (rest = [] → ch = none) → (∀ r rs, rest = r :: rs → ch = some r) →
      parse_number_tail fl neg ip ch rest.tail = decimalResult neg ip rest := by
  intro ch h1 h2
  cases rest with
  | nil =>
    have := h1 rfl
    subst this
    cases neg <;> simp [parse_number_tail, decimalResult, unget]
  | cons r rs =>
    have := h2 r rs rfl
    subst this
    have hx := restOk_facts hrest
    cases neg <;>
      simp [parse_number_tail, decimalResult, unget, hx.1, hx.2.1, hx.2.2.1, hx.2.2.2.1]

theorem parse_number_decimal (fl : Flags) (neg : Bool) (d0 : Nat) (ds rest : List Nat)
    (hd0 : is_digit d0 = true) (hds : ∀ d ∈ ds, is_digit d = true)
    (hz : d0 = 48 → ds = []) (hrest : restOk rest = true) :
    parse_number fl (if neg then 45 else d0) ((if neg then d0 :: ds else ds) ++ rest) =
      decimalResult neg (decAcc (to_number d0) ds) rest := by
  have hd0n : 48 ≤ d0 ∧ d0 ≤ 57 := by simpa [is_digit] using hd0
  have h45 : d0 ≠ 45 := by omega
  have h43 : d0 ≠ 43 := by omega
  have htail : ∀ ip, parse_number_tail fl neg ip rest.head? rest.tail = decimalResult neg ip rest := by
    intro ip
    refine parse_number_tail_clean hrest rest.head? ?_ ?_
    · intro h; subst h; rfl
    · intro r rs h; subst h; rfl
  by_cases h0 : d0 = 48
  · subst h0
    have hds0 : ds = [] := hz rfl
    subst hds0
    cases rest with
    | nil =>
      have ht := htail 0
      cases neg <;>
        · unfold parse_number
          simpa using ht
    | cons r rs =>
      have hx := restOk_facts hrest
      have hhex : ¬(fl.hexadecimal = true ∧ (r = 120 ∨ r = 88)) := by
        rintro ⟨-, h | h⟩
        · exact hx.2.2.2.2.1 h
        · exact hx.2.2.2.2.2 h
      have ht := htail 0
      cases neg <;>
        · unfold parse_number
          simpa [hhex] using ht
  · have hsd := scanDigits_append ds (to_number d0) rest hds
      (fun r rs h => (restOk_facts (h ▸ hrest)).1)
    have ht := htail (decAcc (to_number d0) ds)
    cases neg with
    | false =>
      show parse_number fl d0 (ds ++ rest) = _
      unfold parse_number
      simp [h45, h43, h0, hd0, hsd, ht]
    | true =>
      show parse_number fl 45 ((d0 :: ds) ++ rest) = _
      unfold parse_number
      simp [h45, h43, h0, hd0, hsd, ht]

theorem scanHex_append :
    ∀ (hs : List Nat) (acc : Nat) (nd : Bool) (rest : List Nat),
      (∀ h ∈ hs, (to_number_hex h).isSome = true) →
      (∀ r rs, rest = r :: rs → to_number_hex r = none) →
      scanHex acc nd (hs ++ rest) = (hexAcc acc hs, nd && hs.isEmpty, rest.head?, rest) := by
  intro hs
  induction hs with
  | nil =>
    intro acc nd rest _ hrest
    cases rest with
    | nil => simp [scanHex, hexAcc]
    | cons r rs => simp [scanHex, hrest r rs rfl, hexAcc]
  | cons h hs ih =>
    intro acc nd rest hhs hrest
    obtain ⟨d, hd⟩ := Option.isSome_iff_exists.mp (hhs h (by simp))
    show scanHex acc nd (h :: (hs ++ rest)) = _
    rw [scanHex]
    simp only [hd]
    rw [ih _ false rest (fun y hy => hhs y (by simp [hy])) hrest]
    simp [hexAcc, hd]

theorem parse_number_hex (fl : Flags) (neg : Bool) (x : Nat) (hs rest : List Nat)
    (hfl : fl.hexadecimal = true) (hx : x = 120 ∨ x = 88)
    (hhs : ∀ h ∈ hs, (to_number_hex h).isSome = true)
    (hrest : ∀ r rs, rest = r :: rs → to_number_hex r = none) :
    parse_number fl (if neg then 45 else 48) ((if neg then 48 :: x :: hs else x :: hs) ++ rest) =
      (if hs.isEmpty then .error ⟨rest.head?, "number"⟩
       else .ok (.flt (.finite (if neg then (((-(toI64 (hexAcc 0 hs))) : Int) : Rat)
                                else ((hexAcc 0 hs : Nat) : Rat))), rest)) := by
  have hsh := scanHex_append hs 0 true rest hhs hrest
  rcases hx with hx | hx <;> subst hx <;> cases neg <;>
    · unfold parse_number
      simp [hfl, hsh]

set_option maxHeartbeats 1000000 in
theorem parse_number_tail_integer {fl : Flags} {neg : Bool} {ip : Nat} {ch : Option Nat}
    {input : List Nat} {n : Int} {rest : List Nat}
    (h : parse_number_tail fl neg ip ch input = .ok (.integer n, rest)) :
    -(2 ^ 31) ≤ n ∧ n < 2 ^ 31 := by
  simp only [parse_number_tail] at h
  repeat' split at h
  all_goals
    simp only [Except.ok.injEq, Prod.mk.injEq, value.integer.injEq, reduceCtorEq,
      false_and, and_false] at h
  all_goals (obtain ⟨h1, h2⟩ := h; subst h1; exact toI32_bounds _)

theorem parse_number_integer {fl : Flags} {c0 : Nat} {input : List Nat} {n : Int}
    {rest : List Nat} (h : parse_number fl c0 input = .ok (.integer n, rest)) :
    -(2 ^ 31) ≤ n ∧ n < 2 ^ 31 := by
  simp only [parse_number] at h
  repeat' split at h
  all_goals first
    | exact parse_number_tail_integer h
    | simp_all


/-! ## Claim C4 -/

/-- C4: for every decimal literal (optional `-`, then digits, no
fractional part, no exponent) the parser emits the Integer case exactly
when narrowing the (possibly negated, wrapping 64-bit) integer
accumulator to the platform `int` round-trips, and then the Integer value
is the narrowed value itself; when the narrowing does not round-trip the
result falls through to the Float case — never a truncated Integer. -/
theorem C4_overflow_fallback :
    (∀ (fl : Flags) (neg : Bool) (d0 : Nat) (ds rest : List Nat),
      is_digit d0 = true → (∀ d ∈ ds, is_digit d = true) → (d0 = 48 → ds = []) →
      restOk rest = true →
      toU64 (toI32 (if neg then negU64 (decAcc (to_number d0) ds) else decAcc (to_number d0) ds))
          = (if neg then negU64 (decAcc (to_number d0) ds) else decAcc (to_number d0) ds) →
      parse_number fl (if neg then 45 else d0) ((if neg then d0 :: ds else ds) ++ rest) =
        .ok (.integer (toI32 (if neg then negU64 (decAcc (to_number d0) ds)
                              else decAcc (to_number d0) ds)), rest)) ∧
    (∀ (fl : Flags) (neg : Bool) (d0 : Nat) (ds rest : List Nat),
      is_digit d0 = true → (∀ d ∈ ds, is_digit d = true) → (d0 = 48 → ds = []) →
      restOk rest = true →
      toU64 (toI32 (if neg then negU64 (decAcc (to_number d0) ds) else decAcc (to_number d0) ds))
          ≠ (if neg then negU64 (decAcc (to_number d0) ds) else decAcc (to_number d0) ds) →
      parse_number fl (if neg then 45 else d0) ((if neg then d0 :: ds else ds) ++ rest) =
        .ok (.flt (.finite (if neg then -((decAcc (to_number d0) ds : Nat) : Rat)
                            else ((decAcc (to_number d0) ds : Nat) : Rat))), rest)) := by
  constructor
  · intro fl neg d0 ds rest h1 h2 h3 h4 hrt
    rw [parse_number_decimal fl neg d0 ds rest h1 h2 h3 h4]
    simp only [decimalResult]
    rw [if_pos hrt]
  · intro fl neg d0 ds rest h1 h2 h3 h4 hrt
    rw [parse_number_decimal fl neg d0 ds rest h1 h2 h3 h4]
    simp only [decimalResult]
    rw [if_neg hrt]

theorem C4_witness :
    parse_number ecma404 53 [] = .ok (.integer 5, []) ∧
    parse_number ecma404 45 [53] = .ok (.integer (-5), []) ∧
    parse_number ecma404 50 [49, 52, 55, 52, 56, 51, 54, 52, 56]
      = .ok (.flt (.finite ((2147483648 : Nat) : Rat)), []) ∧
    parse_number ecma404 45 [50, 49, 52, 55, 52, 56, 51, 54, 52, 57]
      = .ok (.flt (.finite (-((2147483649 : Nat) : Rat))), []) :=
  ⟨C4_overflow_fallback.1 ecma404 false 53 [] [] (by decide) (by decide) (by decide)
     (by decide) (by decide),
   C4_overflow_fallback.1 ecma404 true 53 [] [] (by decide) (by decide) (by decide)
     (by decide) (by decide),
   C4_overflow_fallback.2 ecma404 false 50 [49, 52, 55, 52, 56, 51, 54, 52, 56] []
     (by decide) (by decide) (by decide) (by decide) (by decide),
   C4_overflow_fallback.2 ecma404 true 50 [49, 52, 55, 52, 56, 51, 54, 52, 57] []
     (by decide) (by decide) (by decide) (by decide) (by decide)⟩

/-! ## Claim C5 -/

/-- C5: hexadecimal literals (hex flag enabled): `parse5("0x1F")` yields
a floating value equal to 31.0; in general `0x` followed by at least one
hex digit is emitted as the Float case (sign-adjusted), never the
Integer case, with the scan ending right after the hex digits; `0x` with
no following hex digit is a syntax error. -/
theorem C5_hex_literals :
    parse5 (bytesOf "0x1F") = .ok (.flt (.finite ((31 : Nat) : Rat))) ∧
    (∀ (fl : Flags) (neg : Bool) (x : Nat) (hs rest : List Nat),
      fl.hexadecimal = true → (x = 120 ∨ x = 88) → hs ≠ [] →
      (∀ h ∈ hs, (to_number_hex h).isSome = true) →
      (∀ r rs, rest = r :: rs → to_number_hex r = none) →
      parse_number fl (if neg then 45 else 48) ((if neg then 48 :: x :: hs else x :: hs) ++ rest)
        = .ok (.flt (.finite (if neg then (((-(toI64 (hexAcc 0 hs))) : Int) : Rat)
                              else ((hexAcc 0 hs : Nat) : Rat))), rest)) ∧
    (∀ (fl : Flags) (neg : Bool) (x : Nat) (rest : List Nat),
      fl.hexadecimal = true → (x = 120 ∨ x = 88) →
      (∀ r rs, rest = r :: rs → to_number_hex r = none) →
      parse_number fl (if neg then 45 else 48) ((if neg then 48 :: x :: [] else x :: []) ++ rest)
        = .error ⟨rest.head?, "number"⟩) := by
  refine ⟨?_, ?_, ?_⟩
  · have hb : bytesOf "0x1F" = [48, 120, 49, 70] := by decide
    rw [hb]
    unfold parse5 do_parse parse_value parseGo topFuel
    simp only [skip_spaces, skipSpacesGo]
    simp only [json5, isSpace]
    norm_num
    simp [parse_number, scanHex, to_number_hex, is_digit, to_number, toI64, json5, unget,
      skipSpacesGo, Except.map]
  · intro fl neg x hs rest hfl hx hne hhs hrest
    rw [parse_number_hex fl neg x hs rest hfl hx hhs hrest]
    rw [if_neg (by simpa using hne)]
  · intro fl neg x rest hfl hx hrest
    rw [parse_number_hex fl neg x [] rest hfl hx (by simp) hrest]
    rfl

theorem C5_witness :
    parse_number json5 48 [120, 49] = .ok (.flt (.finite ((hexAcc 0 [49] : Nat) : Rat)), []) ∧
    parse_number json5 45 [48, 88, 102] =
      .ok (.flt (.finite (((-(toI64 (hexAcc 0 [102]))) : Int) : Rat)), []) ∧
    parse_number json5 48 [120] = .error ⟨none, "number"⟩ :=
  ⟨C5_hex_literals.2.1 json5 false 120 [49] [] (by decide) (by decide) (by decide)
     (by decide) (fun r rs h => by cases h),
   C5_hex_literals.2.1 json5 true 88 [102] [] (by decide) (by decide) (by decide)
     (by decide) (fun r rs h => by cases h),
   C5_hex_literals.2.2 json5 false 120 [] (by decide) (by decide) (fun r rs h => by cases h)⟩

/-! ## Claim C1 -/

/-- C1, counterexample to the claim as stated: parsing the decimal
literal `"123.0"` — fractional part present — yields the Integer case
(123), not the Float case: the fractional digit `0` leaves the
fractional accumulator at zero, and the decision tests the accumulator,
not the presence of a fractional part. -/
theorem C1_counterexample :
    parse (bytesOf "123.0") = .ok (.integer 123) ∧
    (value.integer 123).is_float = false ∧
    (value.integer 123).is_integer = true :=
  ⟨by decide, by decide, by decide⟩

/-- C1 (amended): parsing `"123"` yields the Integer case with value 123
and `"1e2"` yields the Float case; but `"123.0"` also yields Integer 123,
because the Integer case is chosen whenever the fractional and exponent
accumulators are both zero (regardless of whether a fractional part was
written) and the sign-adjusted value narrows exactly to the platform
`int`; consequently every Integer result fits the platform integer
range. -/
theorem C1_integer_float_amended :
    parse (bytesOf "123") = .ok (.integer 123) ∧
    parse (bytesOf "1e2") = .ok (.flt (.finite ((100 : Nat) : Rat))) ∧
    parse (bytesOf "123.0") = .ok (.integer 123) ∧
    (∀ (fl : Flags) (c0 : Nat) (input : List Nat) (n : Int) (rest : List Nat),
      parse_number fl c0 input = .ok (.integer n, rest) → -(2 ^ 31) ≤ n ∧ n < 2 ^ 31) := by
  refine ⟨by decide, ?_, by decide, fun fl c0 input n rest h => parse_number_integer h⟩
  have hb : bytesOf "1e2" = [49, 101, 50] := by decide
  rw [hb]
  unfold parse do_parse parse_value parseGo topFuel
  simp only [skip_spaces, skipSpacesGo]
  simp only [ecma404, isSpace]
  norm_num
  simp [parse_number, parse_number_tail, scanDigits, scanExp, is_digit, to_number,
    unget, toI32, toU64, ecma404, skipSpacesGo, Except.map]
  norm_num

theorem C1_witness : -(2 ^ 31) ≤ (1 : Int) ∧ (1 : Int) < 2 ^ 31 :=
  C1_integer_float_amended.2.2.2 ecma404 49 [] 1 [] (by decide)

theorem keyLt_irrefl : ∀ a, keyLt a a = false := by
  intro a
  induction a with
  | nil => rfl
  | cons x xs ih => simp [keyLt, ih]

theorem keyLt_asymm : ∀ a b, keyLt a b = true → keyLt b a = false := by
  intro a
  induction a with
  | nil => intro b h; cases b <;> simp [keyLt] at h ⊢
  | cons x xs ih =>
    intro b h
    cases b with
    | nil => simp [keyLt] at h
    | cons y ys =>
      simp only [keyLt] at h ⊢
      by_cases hxy : x < y
      · have : ¬(y < x) := by omega
        have : ¬(y = x) := by omega
        simp [*]
      · by_cases hxe : x = y
        · subst hxe
          simp only [lt_irrefl, if_false, if_pos rfl] at h ⊢
          simp at h
          simp [ih ys h]
        · simp [hxy, hxe] at h

theorem keyLt_total : ∀ a b, keyLt a b = false → keyLt b a = false → a = b := by
  intro a
  induction a with
  | nil => intro b h1 _; cases b with
    | nil => rfl
    | cons y ys => simp [keyLt] at h1
  | cons x xs ih =>
    intro b h1 h2
    cases b with
    | nil => simp [keyLt] at h2
    | cons y ys =>
      simp only [keyLt] at h1 h2
      by_cases hxy : x < y
      · simp [hxy] at h1
      · by_cases hyx : y < x
        · simp [hyx] at h2
        · have hxe : x = y := by omega
          subst hxe
          simp at h1 h2
          rw [ih ys h1 h2]

theorem keyLt_trans : ∀ a b c, keyLt a b = true → keyLt b c = true → keyLt a c = true := by
  intro a
  induction a with
  | nil =>
    intro b c h1 h2
    cases b with
    | nil => simp [keyLt] at h1
    | cons y ys =>
      cases c with
      | nil => simp [keyLt] at h2
      | cons z zs => simp [keyLt]
  | cons x xs ih =>
    intro b c h1 h2
    cases b with
    | nil => simp [keyLt] at h1
    | cons y ys =>
      cases c with
      | nil => simp [keyLt] at h2
      | cons z zs =>
        simp only [keyLt] at h1 h2 ⊢
        by_cases hxy : x < y <;> by_cases hyz : y < z
        · simp [show x < z by omega]
        · simp [hyz] at h2
          have : y = z := by omega
          subst this
          simp [hxy]
        · simp [hxy] at h1
          have : x = y := by omega
          subst this
          simp [hyz]
        · simp [hxy] at h1
          simp [hyz] at h2
          obtain ⟨hx, h1⟩ := h1
          obtain ⟨hy, h2⟩ := h2
          subst hx
          subst hy
          simp [ih _ _ h1 h2]

theorem mapFind_insert_self : ∀ (m : List (List Nat × value)) (k : List Nat) (v : value),
    mapFind k (mapInsert k v m) = some v := by
  intro m
  induction m with
  | nil => intro k v; simp [mapInsert, mapFind]
  | cons kv m ih =>
    intro k v
    obtain ⟨k1, v1⟩ := kv
    simp only [mapInsert]
    by_cases h1 : keyLt k k1 = true
    · simp [h1, mapFind]
    · by_cases h2 : k = k1
      · subst h2
        simp [h1, mapFind, keyLt_irrefl]
      · simp [h1, h2, mapFind, ih]

theorem mapInsert_append : ∀ (m : List (List Nat × value)) (k : List Nat) (v : value),
    (∀ kv ∈ m, keyLt kv.1 k = true) → mapInsert k v m = m ++ [(k, v)] := by
  intro m
  induction m with
  | nil => intro k v _; rfl
  | cons kv m ih =>
    intro k v h
    obtain ⟨k1, v1⟩ := kv
    have hk1 : keyLt k1 k = true := h (k1, v1) (by simp)
    have hn1 : keyLt k k1 = false := keyLt_asymm _ _ hk1
    have hne : k ≠ k1 := by
      intro he
      subst he
      rw [keyLt_irrefl] at hk1
      cases hk1
    simp only [mapInsert, hn1, hne, if_false, Bool.false_eq_true, List.cons_append]
    rw [ih k v (fun kv hkv => h kv (by simp [hkv]))]

theorem sortedMembers_cons {k : List Nat} {v : value} {kvs : List (List Nat × value)} :
    value.sortedObjsMembers ((k, v) :: kvs) = true ↔
      value.sortedObjs v = true ∧
        (∀ k2 v2 kvs2, kvs = (k2, v2) :: kvs2 → keyLt k k2 = true) ∧
        value.sortedObjsMembers kvs = true := by
  cases kvs with
  | nil =>
    show (value.sortedObjs v && true && true) = true ↔ _
    simp only [Bool.and_true]
    constructor
    · intro h
      exact ⟨h, ⟨fun k2 v2 kvs2 he => List.noConfusion he, rfl⟩⟩
    · intro h
      exact h.1
  | cons kv2 kvs2 =>
    obtain ⟨k2, v2⟩ := kv2
    show (value.sortedObjs v && keyLt k k2 && value.sortedObjsMembers ((k2, v2) :: kvs2)) = true ↔ _
    simp only [Bool.and_eq_true]
    constructor
    · intro h
      refine ⟨h.1.1, ?_, h.2⟩
      intro k3 v3 kvs3 he
      cases he
      exact h.1.2
    · rintro ⟨h1, h2, h3⟩
      exact ⟨⟨h1, h2 k2 v2 kvs2 rfl⟩, h3⟩

theorem sortedMembers_head_lt :
    ∀ (kvs : List (List Nat × value)) (k : List Nat) (v : value),
      value.sortedObjsMembers ((k, v) :: kvs) = true → ∀ kv ∈ kvs, keyLt k kv.1 = true := by
  intro kvs
  induction kvs with
  | nil =>
    intro k v _ kv hkv
    simp at hkv
  | cons kv2 kvs ih =>
    intro k v h kv hkv
    obtain ⟨k2, v2⟩ := kv2
    obtain ⟨hv, hlt, hrest⟩ := sortedMembers_cons.mp h
    have hlt2 : keyLt k k2 = true := hlt k2 v2 kvs rfl
    rcases List.mem_cons.mp hkv with he | hm
    · subst he
      exact hlt2
    · obtain ⟨hv2, _, hrest2⟩ := sortedMembers_cons.mp hrest
      have := ih k2 v2 hrest kv hm
      exact keyLt_trans _ _ _ hlt2 this

theorem foldl_mapInsert_id :
    ∀ (kvs m : List (List Nat × value)),
      value.sortedObjsMembers kvs = true →
      (∀ kv ∈ m, ∀ kv2 ∈ kvs, keyLt kv.1 kv2.1 = true) →
      kvs.foldl (fun m kv => mapInsert kv.1 kv.2 m) m = m ++ kvs := by
  intro kvs
  induction kvs with
  | nil => intro m _ _; simp
  | cons kv kvs ih =>
    intro m hs hm
    obtain ⟨k, v⟩ := kv
    simp only [List.foldl_cons]
    have h1 : mapInsert k v m = m ++ [(k, v)] := by
      refine mapInsert_append m k v (fun kv2 hkv2 => hm kv2 hkv2 (k, v) (by simp))
    rw [h1]
    have hs2 : value.sortedObjsMembers kvs = true := (sortedMembers_cons.mp hs).2.2
    have hhd := sortedMembers_head_lt kvs k v hs
    rw [ih (m ++ [(k, v)]) hs2 ?_]
    · simp
    · intro kv2 hkv2 kv3 hkv3
      rcases List.mem_append.mp hkv2 with h | h
      · exact hm kv2 h kv3 (by simp [hkv3])
      · simp at h
        subst h
        exact hhd kv3 hkv3

theorem decPlain_mono : ∀ (ds : List Nat) (acc : Nat), acc ≤ decPlain acc ds := by
  intro ds
  induction ds with
  | nil => intro acc; simp [decPlain]
  | cons d ds ih =>
    intro acc
    have h1 : acc ≤ acc * 10 + to_number d := by omega
    have h2 := ih (acc * 10 + to_number d)
    simp only [decPlain, List.foldl_cons] at *
    omega

theorem decAcc_eq_plain : ∀ (ds : List Nat) (acc : Nat),
    decPlain acc ds < 2 ^ 64 → decAcc acc ds = decPlain acc ds := by
  intro ds
  induction ds with
  | nil => intro acc _; rfl
  | cons d ds ih =>
    intro acc h
    have hs : acc * 10 + to_number d ≤ decPlain (acc * 10 + to_number d) ds :=
      decPlain_mono ds _
    have hp : decPlain (acc * 10 + to_number d) ds < 2 ^ 64 := by
      simpa [decPlain, List.foldl_cons] using h
    have hm : (acc * 10 + to_number d) % 2 ^ 64 = acc * 10 + to_number d :=
      Nat.mod_eq_of_lt (by omega)
    simp only [decAcc, decPlain, List.foldl_cons] at *
    rw [hm]
    exact ih _ hp

theorem natDecimalAux_digits : ∀ (f n : Nat), ∀ d ∈ natDecimalAux f n, is_digit d = true := by
  intro f
  induction f with
  | zero => intro n d hd; simp [natDecimalAux] at hd
  | succ f ih =>
    intro n d hd
    simp only [natDecimalAux] at hd
    by_cases h : n < 10
    · simp [h] at hd
      subst hd
      simp [is_digit]
      omega
    · simp [h] at hd
      rcases hd with hm | hm
      · exact ih _ d hm
      · subst hm
        simp [is_digit]
        omega

theorem natDecimalAux_ne_nil : ∀ (f n : Nat), natDecimalAux (f + 1) n ≠ [] := by
  intro f n
  simp only [natDecimalAux]
  by_cases h : n < 10
  · simp [h]
  · simp [h]

theorem natDecimalAux_val : ∀ (f n : Nat), n < 10 ^ f →
    decPlain 0 (natDecimalAux f n) = n := by
  intro f
  induction f with
  | zero =>
    intro n h
    simp at h
    subst h
    rfl
  | succ f ih =>
    intro n h
    simp only [natDecimalAux]
    by_cases h10 : n < 10
    · simp [h10, decPlain, to_number]
    · simp only [h10, if_false]
      have hq : n / 10 < 10 ^ f := by
        have : n < 10 ^ (f + 1) := h
        have hp : 10 ^ (f + 1) = 10 ^ f * 10 := by ring
        omega
      simp only [decPlain, List.foldl_append, List.foldl_cons, List.foldl_nil]
      have := ih (n / 10) hq
      simp only [decPlain] at this
      rw [this]
      simp [to_number]
      omega

theorem natDecimal_val (n : Nat) : decPlain 0 (natDecimal n) = n := by
  refine natDecimalAux_val (n + 1) n ?_
  have h1 : n < 10 ^ n := Nat.lt_pow_self (by norm_num) n
  have h2 : 10 ^ n ≤ 10 ^ (n + 1) := Nat.pow_le_pow_right (by norm_num) (by omega)
  omega

theorem natDecimal_digits (n : Nat) : ∀ d ∈ natDecimal n, is_digit d = true :=
  natDecimalAux_digits (n + 1) n

theorem natDecimal_ne_nil (n : Nat) : natDecimal n ≠ [] := natDecimalAux_ne_nil n n

theorem natDecimalAux_head_pos : ∀ (f n d : Nat) (ds : List Nat), 0 < n → n < 10 ^ f →
    natDecimalAux f n = d :: ds → d ≠ 48 := by
  intro f
  induction f with
  | zero =>
    intro n d ds hn hf _
    simp at hf
    omega
  | succ f ih =>
    intro n d ds hn hf he
    simp only [natDecimalAux] at he
    by_cases h10 : n < 10
    · simp [h10] at he
      obtain ⟨h1, h2⟩ := he
      omega
    · simp only [h10, if_false] at he
      have hq1 : 0 < n / 10 := by omega
      have hq2 : n / 10 < 10 ^ f := by
        have hp : 10 ^ (f + 1) = 10 ^ f * 10 := by ring
        omega
      rcases hx : natDecimalAux f (n / 10) with _ | ⟨d2, ds2⟩
      · exact absurd hx (by
          rcases f with _ | f
          · simp [natDecimalAux] at hx ⊢
            omega
          · exact natDecimalAux_ne_nil f (n / 10))
      · rw [hx] at he
        simp at he
        obtain ⟨h1, h2⟩ := he
        subst h1
        exact ih (n / 10) d2 ds2 hq1 hq2 hx

theorem natDecimal_head_pos (n d : Nat) (ds : List Nat) (hn : 0 < n)
    (he : natDecimal n = d :: ds) : d ≠ 48 := by
  refine natDecimalAux_head_pos (n + 1) n d ds hn ?_ he
  have h1 : n < 10 ^ n := Nat.lt_pow_self (by norm_num) n
  have h2 : 10 ^ n ≤ 10 ^ (n + 1) := Nat.pow_le_pow_right (by norm_num) (by omega)
  omega

theorem toI32_small {a : Nat} (h : a < 2 ^ 31) : toI32 a = (a : Int) := by
  unfold toI32
  rw [Nat.mod_eq_of_lt (by omega)]
  rw [if_pos h]

theorem toU64_ofNat {a : Nat} (h : a < 2 ^ 64) : toU64 (a : Int) = a := by
  unfold toU64
  omega

theorem toI32_negU64 {a : Nat} (h1 : 0 < a) (h2 : a ≤ 2 ^ 31) :
    toI32 (negU64 a) = -(a : Int) := by
  unfold toI32 negU64
  have ha : a % 2 ^ 64 = a := Nat.mod_eq_of_lt (by omega)
  rw [ha]
  have hb : (2 ^ 64 - a) % 2 ^ 64 = 2 ^ 64 - a := Nat.mod_eq_of_lt (by omega)
  rw [hb]
  have hm : (2 ^ 64 - a) % 2 ^ 32 = 2 ^ 32 - a := by omega
  rw [hm, if_neg (by omega)]
  omega

theorem toU64_negInt {a : Nat} (h1 : 0 < a) (h2 : a ≤ 2 ^ 31) :
    toU64 (-(a : Int)) = negU64 a := by
  unfold toU64 negU64
  omega

theorem decimalResult_neg {a : Nat} (rest : List Nat) (h1 : 0 < a) (h2 : a ≤ 2 ^ 31) :
    decimalResult true a rest = .ok (.integer (-(a : Int)), rest) := by
  have e1 := toI32_negU64 h1 h2
  have e2 : toU64 (toI32 (negU64 a)) = negU64 a := by
    rw [e1]
    exact toU64_negInt h1 h2
  show (if toU64 (toI32 (negU64 a)) = negU64 a
      then (Except.ok (value.integer (toI32 (negU64 a)), rest) : Except SyntaxErr (value × List Nat))
      else .ok (.flt (.finite (-(a : Rat))), rest)) = .ok (.integer (-(a : Int)), rest)
  rw [if_pos e2, e1]

theorem decimalResult_pos {a : Nat} (rest : List Nat) (h2 : a < 2 ^ 31) :
    decimalResult false a rest = .ok (.integer (a : Int), rest) := by
  have e1 := toI32_small h2
  have e2 : toU64 (toI32 a) = a := by
    rw [e1]
    exact toU64_ofNat (by omega)
  show (if toU64 (toI32 a) = a
      then (Except.ok (value.integer (toI32 a), rest) : Except SyntaxErr (value × List Nat))
      else .ok (.flt (.finite (a : Rat)), rest)) = .ok (.integer (a : Int), rest)
  rw [if_pos e2, e1]

theorem parse_number_intText (fl : Flags) (n : Int) (rest : List Nat)
    (hlo : -(2 ^ 31) ≤ n) (hhi : n < 2 ^ 31) (hrest : restOk rest = true) :
    ∀ c cs, intToDecimal n = c :: cs → parse_number fl c (cs ++ rest) = .ok (.integer n, rest) := by
  intro c cs he
  by_cases hneg : n < 0
  · have ha1 : 0 < n.natAbs := by omega
    have ha2 : n.natAbs ≤ 2 ^ 31 := by omega
    rcases hnd : natDecimal n.natAbs with _ | ⟨d0, ds⟩
    · exact absurd hnd (natDecimal_ne_nil _)
    · have hdig := natDecimal_digits n.natAbs
      rw [hnd] at hdig
      simp only [intToDecimal, if_pos hneg, hnd] at he
      injection he with h1 h2
      rw [← h1, ← h2]
      have hval : decAcc (to_number d0) ds = n.natAbs := by
        have hplain : decPlain (to_number d0) ds = n.natAbs := by
          have := natDecimal_val n.natAbs
          rw [hnd] at this
          simpa [decPlain, List.foldl_cons] using this
        rw [decAcc_eq_plain ds (to_number d0) (by rw [hplain]; omega), hplain]
      have hpd : parse_number fl 45 ((d0 :: ds) ++ rest)
          = decimalResult true (decAcc (to_number d0) ds) rest :=
        parse_number_decimal fl true d0 ds rest (hdig d0 (by simp))
          (fun d hd => hdig d (by simp [hd]))
          (fun h48 => absurd h48 (natDecimal_head_pos _ _ _ ha1 hnd)) hrest
      rw [hpd, hval, decimalResult_neg rest ha1 ha2]
      have : -((n.natAbs : Int)) = n := by omega
      rw [this]
  · have hn0 : 0 ≤ n := by omega
    have ha2 : n.toNat < 2 ^ 31 := by omega
    rcases hnd : natDecimal n.toNat with _ | ⟨d0, ds⟩
    · exact absurd hnd (natDecimal_ne_nil _)
    · have hdig := natDecimal_digits n.toNat
      rw [hnd] at hdig
      simp only [intToDecimal, if_neg hneg, hnd] at he
      injection he with h1 h2
      rw [← h1, ← h2]
      have hval : decAcc (to_number d0) ds = n.toNat := by
        have hplain : decPlain (to_number d0) ds = n.toNat := by
          have := natDecimal_val n.toNat
          rw [hnd] at this
          simpa [decPlain, List.foldl_cons] using this
        rw [decAcc_eq_plain ds (to_number d0) (by rw [hplain]; omega), hplain]
      have hz : d0 = 48 → ds = [] := by
        intro h48
        by_cases h0 : n.toNat = 0
        · rw [h0] at hnd
          have h00 : natDecimal 0 = [48] := rfl
          rw [h00] at hnd
          injection hnd with _ h
          exact h.symm
        · exact absurd h48 (natDecimal_head_pos _ _ _ (by omega) hnd)
      have hpd : parse_number fl d0 (ds ++ rest)
          = decimalResult false (decAcc (to_number d0) ds) rest :=
        parse_number_decimal fl false d0 ds rest (hdig d0 (by simp))
          (fun d hd => hdig d (by simp [hd])) hz hrest
      rw [hpd, hval, decimalResult_pos rest ha2]
      have : ((n.toNat : Int)) = n := by omega
      rw [this]

theorem to_number_hex_hexDigitChar : ∀ x < 16, to_number_hex (hexDigitChar x) = some x := by
  decide

theorem parse_string_escaped (fl : Flags) (ctx : String) :
    ∀ (s : List Nat) (fuel : Nat) (buffer rest : List Nat),
      ((s.map escByte).flatten).length + 1 ≤ fuel →
      parse_string_loop fl 34 ctx fuel buffer ((s.map escByte).flatten ++ 34 :: rest) =
        .ok (buffer ++ s, rest) := by
  intro s
  induction s with
  | nil =>
    intro fuel buffer rest hf
    match fuel, hf with
    | f + 1, _ =>
      simp [parse_string_loop]
  | cons b bs ih =>
    intro fuel buffer rest hf
    simp only [List.map_cons, List.flatten_cons, List.length_append, List.append_assoc] at hf ⊢
    by_cases h34 : b = 34
    · subst h34
      match fuel, hf with
      | f + 1, hf =>
        simp only [escByte, if_pos rfl] at hf ⊢
        simp only [List.cons_append, parse_string_loop]
        norm_num
        rw [ih f (buffer ++ [34]) rest (by simp at hf ⊢; omega)]
        simp
    · by_cases h92 : b = 92
      · subst h92
        match fuel, hf with
        | f + 1, hf =>
          simp only [escByte] at hf ⊢
          norm_num at hf ⊢
          simp only [List.cons_append, parse_string_loop]
          norm_num
          rw [ih f (buffer ++ [92]) rest (by simp at hf ⊢; omega)]
          simp
      · by_cases hx8 : b = 8
        · subst hx8
          match fuel, hf with
          | f + 1, hf =>
            simp only [escByte] at hf ⊢
            norm_num at hf ⊢
            simp only [List.cons_append, parse_string_loop]
            norm_num
            rw [ih f (buffer ++ [8]) rest (by simp at hf ⊢; omega)]
            simp
        by_cases hx12 : b = 12
        · subst hx12
          match fuel, hf with
          | f + 1, hf =>
            simp only [escByte] at hf ⊢
            norm_num at hf ⊢
            simp only [List.cons_append, parse_string_loop]
            norm_num
            rw [ih f (buffer ++ [12]) rest (by simp at hf ⊢; omega)]
            simp
        by_cases hx10 : b = 10
        · subst hx10
          match fuel, hf with
          | f + 1, hf =>
            simp only [escByte] at hf ⊢
            norm_num at hf ⊢
            simp only [List.cons_append, parse_string_loop]
            norm_num
            rw [ih f (buffer ++ [10]) rest (by simp at hf ⊢; omega)]
            simp
        by_cases hx13 : b = 13
        · subst hx13
          match fuel, hf with
          | f + 1, hf =>
            simp only [escByte] at hf ⊢
            norm_num at hf ⊢
            simp only [List.cons_append, parse_string_loop]
            norm_num
            rw [ih f (buffer ++ [13]) rest (by simp at hf ⊢; omega)]
            simp
        by_cases hx9 : b = 9
        · subst hx9
          match fuel, hf with
          | f + 1, hf =>
            simp only [escByte] at hf ⊢
            norm_num at hf ⊢
            simp only [List.cons_append, parse_string_loop]
            norm_num
            rw [ih f (buffer ++ [9]) rest (by simp at hf ⊢; omega)]
            simp
        by_cases hlt : b < 32
        · match fuel, hf with
          | f + 1, hf =>
            have e1 := to_number_hex_hexDigitChar (b / 16) (by omega)
            have e2 := to_number_hex_hexDigitChar (b % 16) (by omega)
            have e48 : to_number_hex 48 = some 0 := rfl
            simp only [escByte, h34, h92, hx8, hx12, hx10, hx13, hx9, if_neg, if_pos hlt] at hf ⊢
            simp only [List.cons_append, parse_string_loop]
            norm_num
            simp only [e48, e1, e2]
            have hcode : ((0 * 16 + 0) * 16 + b / 16) * 16 + b % 16 = b := by omega
            rw [hcode]
            have hue : utf8enc b = [b] := by
              unfold utf8enc
              rw [if_pos (by omega)]
            rw [hue]
            rw [ih f (buffer ++ [b]) rest (by simp at hf ⊢; omega)]
            simp
        · match fuel, hf with
          | f + 1, hf =>
            simp only [escByte, h34, h92, hx8, hx12, hx10, hx13, hx9, hlt, if_neg, if_false] at hf ⊢
            simp only [List.cons_append, parse_string_loop]
            rw [if_neg h34, if_neg (by omega), if_neg h92]
            show parse_string_loop fl 34 ctx f (buffer ++ [b])
                ((List.map escByte bs).flatten ++ 34 :: rest) = _
            rw [ih f (buffer ++ [b]) rest (by simp at hf ⊢; omega)]
            simp

theorem sepItems_cons (v : value) (vs : List value) :
    sepItems (v :: vs) = 44 :: (stringify v ++ sepItems vs) := by
  simp [sepItems]

theorem sepMembers_cons (k : List Nat) (v : value) (kvs : List (List Nat × value)) :
    sepMembers ((k, v) :: kvs) = 44 :: (memberText k v ++ sepMembers kvs) := by
  simp [sepMembers]

theorem items_compact_eq : ∀ (vs : List value) (v : value),
    stringify_items_compact ⟨false, false, false⟩ 0 [] (v :: vs) = stringify v ++ sepItems vs := by
  intro vs
  induction vs with
  | nil =>
    intro v
    simp [stringify_items_compact, sepItems, stringify]
  | cons w ws ih =>
    intro v
    rw [sepItems_cons]
    show stringify_value ⟨false, false, false⟩ 0 v [] ++
        (if (w :: ws).isEmpty then [] else
          44 :: stringify_items_compact ⟨false, false, false⟩ 0 [] (w :: ws)) = _
    rw [ih w]
    simp [stringify]

theorem members_compact_eq : ∀ (kvs : List (List Nat × value)) (k : List Nat) (v : value),
    stringify_members_compact ⟨false, false, false⟩ 0 [] ((k, v) :: kvs) =
      memberText k v ++ sepMembers kvs := by
  intro kvs
  induction kvs with
  | nil =>
    intro k v
    simp [stringify_members_compact, sepMembers, memberText, stringify]
  | cons kw kws ih =>
    intro k v
    obtain ⟨k2, w⟩ := kw
    rw [sepMembers_cons]
    show stringify_string k ++ [58] ++ stringify_value ⟨false, false, false⟩ 0 v [] ++
        (if ((k2, w) :: kws).isEmpty then [] else
          44 :: stringify_members_compact ⟨false, false, false⟩ 0 [] ((k2, w) :: kws)) = _
    rw [ih k2 w]
    simp [stringify, memberText]

theorem stringify_arr_cons (v : value) (vs : List value) :
    stringify (.arr (v :: vs)) = 91 :: ((stringify v ++ sepItems vs) ++ [93]) := by
  show stringify_value ⟨false, false, false⟩ 0 (.arr (v :: vs)) [] = _
  unfold stringify_value
  rw [if_neg (by simp), if_pos rfl, items_compact_eq]
  simp

theorem stringify_obj_cons (k : List Nat) (v : value) (kvs : List (List Nat × value)) :
    stringify (.obj ((k, v) :: kvs)) = 123 :: ((memberText k v ++ sepMembers kvs) ++ [125]) := by
  show stringify_value ⟨false, false, false⟩ 0 (.obj ((k, v) :: kvs)) [] = _
  unfold stringify_value
  rw [if_neg (by simp), if_pos rfl, members_compact_eq]
  simp

theorem intToDecimal_ne_nil (n : Int) : intToDecimal n ≠ [] := by
  unfold intToDecimal
  split
  · simp
  · exact natDecimal_ne_nil _

theorem intToDecimal_head (n : Int) : ∀ c cs, intToDecimal n = c :: cs →
    c = 45 ∨ is_digit c = true := by
  intro c cs h
  unfold intToDecimal at h
  split at h
  · injection h with h1 _
    exact Or.inl h1.symm
  · rcases hnd : natDecimal n.toNat with _ | ⟨d, ds⟩
    · exact absurd hnd (natDecimal_ne_nil _)
    · rw [hnd] at h
      injection h with h1 _
      have hdig := natDecimal_digits n.toNat
      rw [hnd] at hdig
      exact Or.inr (h1 ▸ hdig d (by simp))

theorem stringify_head (v : value) (hnf : value.noFloat v = true) :
    ∃ c t, stringify v = c :: t ∧ isSpace c = false ∧ c ≠ 47 ∧ c ≠ 93 ∧ c ≠ 125 ∧ c ≠ 44 := by
  cases v with
  | vnull => exact ⟨110, _, rfl, by decide, by decide, by decide, by decide, by decide⟩
  | boolean b =>
    cases b with
    | true => exact ⟨116, _, rfl, by decide, by decide, by decide, by decide, by decide⟩
    | false => exact ⟨102, _, rfl, by decide, by decide, by decide, by decide, by decide⟩
  | integer n =>
    rcases hd : intToDecimal n with _ | ⟨c, cs⟩
    · exact absurd hd (intToDecimal_ne_nil n)
    · have hc := intToDecimal_head n c cs hd
      have hb : c = 45 ∨ (48 ≤ c ∧ c ≤ 57) := by
        rcases hc with h | h
        · exact Or.inl h
        · unfold is_digit at h
          simp at h
          exact Or.inr h
      refine ⟨c, cs, hd, ?_, ?_, ?_, ?_, ?_⟩
      · unfold isSpace
        rcases hb with h | h <;> simp <;> omega
      · rcases hb with h | h <;> omega
      · rcases hb with h | h <;> omega
      · rcases hb with h | h <;> omega
      · rcases hb with h | h <;> omega
  | flt f => simp [value.noFloat] at hnf
  | str sv => exact ⟨34, _, rfl, by decide, by decide, by decide, by decide, by decide⟩
  | arr vs =>
    cases vs with
    | nil => exact ⟨91, _, rfl, by decide, by decide, by decide, by decide, by decide⟩
    | cons w ws =>
      rw [stringify_arr_cons]
      exact ⟨91, _, rfl, by decide, by decide, by decide, by decide, by decide⟩
  | obj kvs =>
    cases kvs with
    | nil => exact ⟨123, _, rfl, by decide, by decide, by decide, by decide, by decide⟩
    | cons kv kvs =>
      obtain ⟨k, w⟩ := kv
      rw [stringify_obj_cons]
      exact ⟨123, _, rfl, by decide, by decide, by decide, by decide, by decide⟩

theorem restOk_sepItems (vs : List value) (rest : List Nat) :
    restOk (sepItems vs ++ 93 :: rest) = true := by
  cases vs with
  | nil => rfl
  | cons v vs =>
    rw [sepItems_cons]
    rfl

theorem restOk_sepMembers (kvs : List (List Nat × value)) (rest : List Nat) :
    restOk (sepMembers kvs ++ 125 :: rest) = true := by
  cases kvs with
  | nil => rfl
  | cons kv kvs =>
    obtain ⟨k, v⟩ := kv
    rw [sepMembers_cons]
    rfl

theorem parseGo_val_vnull (fl : Flags) (f : Nat) (ctx : String) (rest : List Nat) :
    parseGo fl (f + 1) (.val ctx) ([110, 117, 108, 108] ++ rest) = .ok (.vnull, rest) := by
  show parseGo fl (f + 1) (.val ctx) (110 :: ([117, 108, 108] ++ rest)) = _
  simp only [parseGo]
  rw [skip_spaces_cons (by decide) (by decide)]
  norm_num
  unfold parse_null
  rw [show (117 :: 108 :: 108 :: rest) = [117, 108, 108] ++ rest from rfl, eqSeq_append]

theorem parseGo_val_boolean (fl : Flags) (f : Nat) (ctx : String) (b : Bool) (rest : List Nat) :
    parseGo fl (f + 1) (.val ctx) (stringify (.boolean b) ++ rest) = .ok (.boolean b, rest) := by
  cases b with
  | true =>
    show parseGo fl (f + 1) (.val ctx) (116 :: ([114, 117, 101] ++ rest)) = _
    simp only [parseGo]
    rw [skip_spaces_cons (by decide) (by decide)]
    norm_num
    unfold parse_boolean
    rw [if_pos rfl, show (114 :: 117 :: 101 :: rest) = [114, 117, 101] ++ rest from rfl,
      eqSeq_append]
  | false =>
    show parseGo fl (f + 1) (.val ctx) (102 :: ([97, 108, 115, 101] ++ rest)) = _
    simp only [parseGo]
    rw [skip_spaces_cons (by decide) (by decide)]
    norm_num
    unfold parse_boolean
    rw [if_neg (by norm_num), if_pos rfl,
      show (97 :: 108 :: 115 :: 101 :: rest) = [97, 108, 115, 101] ++ rest from rfl, eqSeq_append]

theorem parseGo_val_integer (fl : Flags) (f : Nat) (ctx : String) (n : Int) (rest : List Nat)
    (hlo : -(2 ^ 31) ≤ n) (hhi : n < 2 ^ 31) (hrest : restOk rest = true) :
    parseGo fl (f + 1) (.val ctx) (intToDecimal n ++ rest) = .ok (.integer n, rest) := by
  rcases hd : intToDecimal n with _ | ⟨c, cs⟩
  · exact absurd hd (intToDecimal_ne_nil n)
  · have hc := intToDecimal_head n c cs hd
    have hb : c = 45 ∨ (48 ≤ c ∧ c ≤ 57) := by
      rcases hc with h | h
      · exact Or.inl h
      · unfold is_digit at h
        simp at h
        exact Or.inr h
    have h123 : c ≠ 123 := by rcases hb with h | h <;> omega
    have h91 : c ≠ 91 := by rcases hb with h | h <;> omega
    have h3439 : ¬(c = 34 ∨ c = 39) := by rcases hb with hcb | hcb <;> rintro (h | h) <;> omega
    have h110 : c ≠ 110 := by rcases hb with h | h <;> omega
    have h116102 : ¬(c = 116 ∨ c = 102) := by rcases hb with hcb | hcb <;> rintro (h | h) <;> omega
    have hnum : is_digit c = true ∨ c = 45 ∨ c = 43 ∨ c = 46 ∨ c = 105 ∨ c = 78 := by
      rcases hb with h | h
      · exact Or.inr (Or.inl h)
      · exact Or.inl (by unfold is_digit; simp; omega)
    show parseGo fl (f + 1) (.val ctx) (c :: (cs ++ rest)) = _
    simp only [parseGo]
    rw [skip_spaces_cons (by unfold isSpace; rcases hb with h | h <;> simp <;> omega)
      (by rcases hb with h | h <;> omega)]
    simp [h123, h91, h3439, h110, h116102, hnum]
    exact parse_number_intText fl n rest hlo hhi hrest c cs hd

theorem parseGo_val_str (fl : Flags) (f : Nat) (ctx : String) (sv : List Nat) (rest : List Nat) :
    parseGo fl (f + 1) (.val ctx) (stringify_string sv ++ rest) = .ok (.str sv, rest) := by
  rw [show stringify_string sv ++ rest = 34 :: ((sv.map escByte).flatten ++ 34 :: rest) by
    simp [stringify_string]]
  simp only [parseGo]
  rw [skip_spaces_cons (by decide) (by decide)]
  norm_num [parse_string_str]
  rw [parse_string_escaped fl "string" sv _ [] rest (by simp)]
  simp

theorem parse_key_rt (k rest : List Nat) :
    parse_key ecma404 (stringify_string k ++ rest) = .ok (k, rest) := by
  rw [show stringify_string k ++ rest = 34 :: ((k.map escByte).flatten ++ 34 :: rest) by
    simp [stringify_string]]
  unfold parse_key
  rw [skip_spaces_cons (by decide) (by decide)]
  have hqk : ecma404.unquoted_key = false := rfl
  norm_num [parse_string_str, hqk]
  rw [parse_string_escaped ecma404 "object-key" k _ [] rest (by simp)]
  simp

theorem parseFuel_pos (v : value) : 1 ≤ parseFuel v := by
  cases v <;> simp [parseFuel] <;> omega

theorem mapInsert_ne_nil (k : List Nat) (v : value) (m : List (List Nat × value)) :
    mapInsert k v m ≠ [] := by
  cases m with
  | nil => simp [mapInsert]
  | cons kv r =>
    obtain ⟨k1, v1⟩ := kv
    unfold mapInsert
    split
    · simp
    · split <;> simp

theorem noFloatList_mem : ∀ (vs : List value), value.noFloatList vs = true →
    ∀ v ∈ vs, value.noFloat v = true := by
  intro vs
  induction vs with
  | nil => intro _ v hv; cases hv
  | cons w ws ih =>
    intro h v hv
    rw [show value.noFloatList (w :: ws) = (value.noFloat w && value.noFloatList ws) from rfl,
      Bool.and_eq_true] at h
    rw [List.mem_cons] at hv
    rcases hv with hv | hv
    · exact hv ▸ h.1
    · exact ih h.2 v hv

theorem reprOkList_mem : ∀ (vs : List value), value.reprOkList vs = true →
    ∀ v ∈ vs, value.reprOk v = true := by
  intro vs
  induction vs with
  | nil => intro _ v hv; cases hv
  | cons w ws ih =>
    intro h v hv
    rw [show value.reprOkList (w :: ws) = (value.reprOk w && value.reprOkList ws) from rfl,
      Bool.and_eq_true] at h
    rw [List.mem_cons] at hv
    rcases hv with hv | hv
    · exact hv ▸ h.1
    · exact ih h.2 v hv

theorem sortedObjsList_mem : ∀ (vs : List value), value.sortedObjsList vs = true →
    ∀ v ∈ vs, value.sortedObjs v = true := by
  intro vs
  induction vs with
  | nil => intro _ v hv; cases hv
  | cons w ws ih =>
    intro h v hv
    rw [show value.sortedObjsList (w :: ws) =
      (value.sortedObjs w && value.sortedObjsList ws) from rfl, Bool.and_eq_true] at h
    rw [List.mem_cons] at hv
    rcases hv with hv | hv
    · exact hv ▸ h.1
    · exact ih h.2 v hv

theorem noFloatMembers_mem : ∀ (kvs : List (List Nat × value)), value.noFloatMembers kvs = true →
    ∀ kv ∈ kvs, value.noFloat kv.2 = true := by
  intro kvs
  induction kvs with
  | nil => intro _ kv hkv; cases hkv
  | cons kw kws ih =>
    intro h kv hkv
    obtain ⟨k1, w⟩ := kw
    rw [show value.noFloatMembers ((k1, w) :: kws) =
      (value.noFloat w && value.noFloatMembers kws) from rfl, Bool.and_eq_true] at h
    rw [List.mem_cons] at hkv
    rcases hkv with hkv | hkv
    · exact hkv ▸ h.1
    · exact ih h.2 kv hkv

theorem reprOkMembers_mem : ∀ (kvs : List (List Nat × value)), value.reprOkMembers kvs = true →
    ∀ kv ∈ kvs, value.reprOk kv.2 = true := by
  intro kvs
  induction kvs with
  | nil => intro _ kv hkv; cases hkv
  | cons kw kws ih =>
    intro h kv hkv
    obtain ⟨k1, w⟩ := kw
    rw [show value.reprOkMembers ((k1, w) :: kws) =
      (k1.all (fun x => x < 256) && value.reprOk w && value.reprOkMembers kws) from rfl,
      Bool.and_eq_true, Bool.and_eq_true] at h
    rw [List.mem_cons] at hkv
    rcases hkv with hkv | hkv
    · exact hkv ▸ h.1.2
    · exact ih h.2 kv hkv

theorem sortedObjsMembers_mem : ∀ (kvs : List (List Nat × value)),
    value.sortedObjsMembers kvs = true → ∀ kv ∈ kvs, value.sortedObjs kv.2 = true := by
  intro kvs
  induction kvs with
  | nil => intro _ kv hkv; cases hkv
  | cons kw kws ih =>
    intro h kv hkv
    obtain ⟨k1, w⟩ := kw
    have h2 := (sortedMembers_cons.mp h)
    rw [List.mem_cons] at hkv
    rcases hkv with hkv | hkv
    · exact hkv ▸ h2.1
    · exact ih h2.2.2 kv hkv

theorem parse_key_rtCons (k r : List Nat) :
    parse_key ecma404 (34 :: ((k.map escByte).flatten ++ 34 :: r)) = .ok (k, r) := by
  rw [show (34 : Nat) :: ((k.map escByte).flatten ++ 34 :: r) = stringify_string k ++ r by
    simp [stringify_string]]
  exact parse_key_rt k r

theorem parseGo_roundtrip : ∀ fuel : Nat,
    (∀ (v : value) (ctx : String) (rest : List Nat),
      value.noFloat v = true → value.reprOk v = true → value.sortedObjs v = true →
      restOk rest = true → parseFuel v ≤ fuel →
      parseGo ecma404 fuel (.val ctx) (stringify v ++ rest) = .ok (v, rest)) ∧
    (∀ (acc vs : List value) (rest : List Nat),
      acc ≠ [] →
      (∀ v ∈ vs, value.noFloat v = true ∧ value.reprOk v = true ∧ value.sortedObjs v = true) →
      1 + vs.length + parseFuelList vs ≤ fuel →
      parseGo ecma404 fuel (.arrLoop acc) (sepItems vs ++ 93 :: rest) =
        .ok (.arr (acc ++ vs), rest)) ∧
    (∀ (acc kvs : List (List Nat × value)) (rest : List Nat),
      acc ≠ [] →
      (∀ kv ∈ kvs, value.noFloat kv.2 = true ∧ value.reprOk kv.2 = true ∧
        value.sortedObjs kv.2 = true) →
      1 + kvs.length + parseFuelMembers kvs ≤ fuel →
      parseGo ecma404 fuel (.objLoop acc) (sepMembers kvs ++ 125 :: rest) =
        .ok (.obj (kvs.foldl (fun m kv => mapInsert kv.1 kv.2 m) acc), rest)) := by
  intro fuel
  induction fuel using Nat.strong_induction_on with
  | _ fuel ih =>
    refine ⟨?_, ?_, ?_⟩
    · -- parse_value on stringify output
      intro v ctx rest hnf hro hso hrest hfl
      obtain ⟨f, rfl⟩ : ∃ f, fuel = f + 1 := ⟨fuel - 1, by have := parseFuel_pos v; omega⟩
      cases v with
      | vnull => exact parseGo_val_vnull ecma404 f ctx rest
      | boolean b => exact parseGo_val_boolean ecma404 f ctx b rest
      | integer n =>
        unfold value.reprOk at hro
        have hb := of_decide_eq_true hro
        exact parseGo_val_integer ecma404 f ctx n rest hb.1 hb.2 hrest
      | flt fv => exact absurd hnf (by simp [value.noFloat])
      | str sv => exact parseGo_val_str ecma404 f ctx sv rest
      | arr vs =>
        cases vs with
        | nil =>
          show parseGo ecma404 (f + 1) (.val ctx) (91 :: (93 :: rest)) = _
          simp only [parseGo]
          rw [skip_spaces_cons (by decide) (by decide)]
          norm_num
          obtain ⟨f2, rfl⟩ : ∃ f2, f = f2 + 1 := ⟨f - 1, by simp [parseFuel] at hfl; omega⟩
          simp only [parseGo]
          rw [skip_spaces_cons (by decide) (by decide)]
          simp
        | cons w ws =>
          have hnfl : value.noFloatList (w :: ws) = true := hnf
          have hrol : value.reprOkList (w :: ws) = true := hro
          have hsol : value.sortedObjsList (w :: ws) = true := hso
          have hnfw := noFloatList_mem _ hnfl w (by simp)
          have hrow := reprOkList_mem _ hrol w (by simp)
          have hsow := sortedObjsList_mem _ hsol w (by simp)
          rw [stringify_arr_cons,
            show (91 :: ((stringify w ++ sepItems ws) ++ [93])) ++ rest =
              91 :: (stringify w ++ (sepItems ws ++ 93 :: rest)) by simp]
          simp only [parseGo]
          rw [skip_spaces_cons (by decide) (by decide)]
          norm_num
          simp only [parseFuel, parseFuelList, List.length_cons] at hfl
          obtain ⟨f2, rfl⟩ : ∃ f2, f = f2 + 1 := ⟨f - 1, by omega⟩
          simp only [parseGo]
          obtain ⟨c, t, hct, hsp, h47, h93c, h125c, h44c⟩ := stringify_head w hnfw
          rw [show stringify w ++ (sepItems ws ++ 93 :: rest) =
            c :: (t ++ (sepItems ws ++ 93 :: rest)) by rw [hct]; simp]
          rw [skip_spaces_cons hsp h47]
          simp [h93c, unget]
          rw [show c :: (t ++ (sepItems ws ++ 93 :: rest)) =
            stringify w ++ (sepItems ws ++ 93 :: rest) by rw [hct]; simp]
          rw [(ih f2 (by omega)).1 w "array" (sepItems ws ++ 93 :: rest) hnfw hrow hsow
            (restOk_sepItems ws rest) (by omega)]
          show parseGo ecma404 f2 (Job.arrLoop [w]) (sepItems ws ++ 93 :: rest) = _
          rw [(ih f2 (by omega)).2.1 [w] ws rest (by simp)
            (fun u hu => ⟨noFloatList_mem _ hnfl u (by simp [hu]),
              reprOkList_mem _ hrol u (by simp [hu]),
              sortedObjsList_mem _ hsol u (by simp [hu])⟩) (by omega)]
          simp
      | obj kvs =>
        cases kvs with
        | nil =>
          show parseGo ecma404 (f + 1) (.val ctx) (123 :: (125 :: rest)) = _
          simp only [parseGo]
          rw [skip_spaces_cons (by decide) (by decide)]
          norm_num
          obtain ⟨f2, rfl⟩ : ∃ f2, f = f2 + 1 := ⟨f - 1, by simp [parseFuel] at hfl; omega⟩
          simp only [parseGo]
          rw [skip_spaces_cons (by decide) (by decide)]
          simp
        | cons kw kws =>
          obtain ⟨k, w⟩ := kw
          have hnfm : value.noFloatMembers ((k, w) :: kws) = true := hnf
          have hrom : value.reprOkMembers ((k, w) :: kws) = true := hro
          have hsom : value.sortedObjsMembers ((k, w) :: kws) = true := hso
          have hsc := sortedMembers_cons.mp hsom
          have hnfw := noFloatMembers_mem _ hnfm (k, w) (by simp)
          have hrow := reprOkMembers_mem _ hrom (k, w) (by simp)
          have hsow : value.sortedObjs w = true := hsc.1
          rw [stringify_obj_cons,
            show (123 :: ((memberText k w ++ sepMembers kws) ++ [125])) ++ rest =
              123 :: (memberText k w ++ (sepMembers kws ++ 125 :: rest)) by simp]
          simp only [parseGo]
          rw [skip_spaces_cons (by decide) (by decide)]
          norm_num
          simp only [parseFuel, parseFuelMembers, List.length_cons] at hfl
          obtain ⟨f2, rfl⟩ : ∃ f2, f = f2 + 1 := ⟨f - 1, by omega⟩
          simp only [parseGo]
          rw [show memberText k w ++ (sepMembers kws ++ 125 :: rest) =
            34 :: (((k.map escByte).flatten ++ [34]) ++
              (58 :: (stringify w ++ (sepMembers kws ++ 125 :: rest)))) by
            simp [memberText, stringify_string]]
          rw [skip_spaces_cons (by decide) (by decide)]
          simp [unget, parse_key_rtCons,
            show ∀ r : List Nat, skip_spaces ecma404 (58 :: r) = .ok (some 58, r) from
              fun r => skip_spaces_cons (by decide) (by decide)]
          rw [(ih f2 (by omega)).1 w "object" (sepMembers kws ++ 125 :: rest) hnfw hrow hsow
            (restOk_sepMembers kws rest) (by omega)]
          show parseGo ecma404 f2 (Job.objLoop [(k, w)]) (sepMembers kws ++ 125 :: rest) = _
          rw [(ih f2 (by omega)).2.2 [(k, w)] kws rest (by simp)
            (fun kv hkv => ⟨noFloatMembers_mem _ hnfm kv (by simp [hkv]),
              reprOkMembers_mem _ hrom kv (by simp [hkv]),
              sortedObjsMembers_mem _ hsom kv (by simp [hkv])⟩) (by omega)]
          rw [foldl_mapInsert_id kws [(k, w)] hsc.2.2
            (by intro kv hkv kv2 hkv2
                rw [List.mem_singleton] at hkv
                subst hkv
                exact sortedMembers_head_lt kws k w hsom kv2 hkv2)]
          simp
    · -- the parse_array loop
      intro acc vs rest hacc hmem hfl
      obtain ⟨f, rfl⟩ : ∃ f, fuel = f + 1 := ⟨fuel - 1, by omega⟩
      have hae : acc.isEmpty = false := by
        cases acc with
        | nil => exact absurd rfl hacc
        | cons _ _ => rfl
      cases vs with
      | nil =>
        show parseGo ecma404 (f + 1) (.arrLoop acc) (93 :: rest) = _
        simp only [parseGo]
        rw [skip_spaces_cons (by decide) (by decide)]
        simp
      | cons w ws =>
        obtain ⟨hnfw, hrow, hsow⟩ := hmem w (by simp)
        rw [sepItems_cons,
          show (44 :: (stringify w ++ sepItems ws)) ++ 93 :: rest =
            44 :: (stringify w ++ (sepItems ws ++ 93 :: rest)) by simp]
        simp only [parseGo]
        rw [skip_spaces_cons (by decide) (by decide)]
        have htc : ecma404.trailing_comma = false := rfl
        simp only [parseFuelList] at hfl
        simp only [List.length_cons] at hfl
        simp [hae, htc]
        rw [(ih f (by omega)).1 w "array" (sepItems ws ++ 93 :: rest) hnfw hrow hsow
          (restOk_sepItems ws rest) (by omega)]
        show parseGo ecma404 f (Job.arrLoop (acc ++ [w])) (sepItems ws ++ 93 :: rest) =
          Except.ok (value.arr (acc ++ w :: ws), rest)
        rw [(ih f (by omega)).2.1 (acc ++ [w]) ws rest (by simp)
          (fun v hv => hmem v (by simp [hv])) (by omega)]
        simp
    · -- the parse_object loop
      intro acc kvs rest hacc hmem hfl
      obtain ⟨f, rfl⟩ : ∃ f, fuel = f + 1 := ⟨fuel - 1, by omega⟩
      have hae : acc.isEmpty = false := by
        cases acc with
        | nil => exact absurd rfl hacc
        | cons _ _ => rfl
      cases kvs with
      | nil =>
        show parseGo ecma404 (f + 1) (.objLoop acc) (125 :: rest) = _
        simp only [parseGo]
        rw [skip_spaces_cons (by decide) (by decide)]
        simp
      | cons kw kws =>
        obtain ⟨k, w⟩ := kw
        obtain ⟨hnfw, hrow, hsow⟩ := hmem (k, w) (by simp)
        rw [sepMembers_cons,
          show (44 :: (memberText k w ++ sepMembers kws)) ++ 125 :: rest =
            44 :: (memberText k w ++ (sepMembers kws ++ 125 :: rest)) by simp]
        simp only [parseGo]
        rw [skip_spaces_cons (by decide) (by decide)]
        have htc : ecma404.trailing_comma = false := rfl
        simp only [parseFuelMembers] at hfl
        simp only [List.length_cons] at hfl
        rw [show memberText k w ++ (sepMembers kws ++ 125 :: rest) =
          stringify_string k ++ (58 :: (stringify w ++ (sepMembers kws ++ 125 :: rest))) by
          simp [memberText]]
        simp [hae, htc, parse_key_rt,
          show ∀ r : List Nat, skip_spaces ecma404 (58 :: r) = .ok (some 58, r) from
            fun r => skip_spaces_cons (by decide) (by decide)]
        rw [(ih f (by omega)).1 w "object" (sepMembers kws ++ 125 :: rest) hnfw hrow hsow
          (restOk_sepMembers kws rest) (by omega)]
        show parseGo ecma404 f (Job.objLoop (mapInsert k w acc))
            (sepMembers kws ++ 125 :: rest) =
          Except.ok (value.obj (List.foldl (fun m kv => mapInsert kv.1 kv.2 m) acc
            ((k, w) :: kws)), rest)
        rw [(ih f (by omega)).2.2 (mapInsert k w acc) kws rest (mapInsert_ne_nil k w acc)
          (fun kv hkv => hmem kv (by simp [hkv])) (by omega)]
        simp

theorem stringify_string_len (k : List Nat) : 2 ≤ (stringify_string k).length := by
  simp [stringify_string]

theorem renderFinite_ne_nil (q : Rat) : renderFinite q ≠ [] := by
  unfold renderFinite
  split
  · exact intToDecimal_ne_nil _
  · simp

mutual
theorem parseFuel_le : ∀ v : value, parseFuel v ≤ 2 * (stringify v).length
  | .vnull => by decide
  | .boolean b => by cases b <;> decide
  | .integer n => by
    have h2 : 0 < (intToDecimal n).length := List.length_pos.mpr (intToDecimal_ne_nil n)
    show 1 ≤ 2 * (intToDecimal n).length
    omega
  | .flt fv => by
    cases fv with
    | nan => decide
    | infty b => cases b <;> decide
    | finite q =>
      have h2 : 0 < (renderFinite q).length := List.length_pos.mpr (renderFinite_ne_nil q)
      show 1 ≤ 2 * (renderFinite q).length
      omega
  | .str sv => by
    show 1 ≤ 2 * (stringify_string sv).length
    have := stringify_string_len sv
    omega
  | .arr [] => by decide
  | .arr (w :: ws) => by
    have h1 := parseFuel_le w
    have h2 := parseFuelList_le ws
    rw [show parseFuel (.arr (w :: ws)) =
      2 + (ws.length + 1) + (parseFuel w + parseFuelList ws) from rfl]
    rw [stringify_arr_cons]
    simp
    omega
  | .obj [] => by decide
  | .obj ((k, w) :: kws) => by
    have h1 := parseFuel_le w
    have h2 := parseFuelMembers_le kws
    have h3 := stringify_string_len k
    rw [show parseFuel (.obj ((k, w) :: kws)) =
      2 + (kws.length + 1) + (parseFuel w + parseFuelMembers kws) from rfl]
    rw [stringify_obj_cons]
    simp [memberText]
    omega

theorem parseFuelList_le : ∀ vs : List value, vs.length + parseFuelList vs ≤ 2 * (sepItems vs).length
  | [] => by decide
  | v :: vs => by
    have h1 := parseFuel_le v
    have h2 := parseFuelList_le vs
    rw [sepItems_cons]
    simp [parseFuelList]
    omega

theorem parseFuelMembers_le : ∀ kvs : List (List Nat × value),
    kvs.length + parseFuelMembers kvs ≤ 2 * (sepMembers kvs).length
  | [] => by decide
  | (k, w) :: kws => by
    have h1 := parseFuel_le w
    have h2 := parseFuelMembers_le kws
    have h3 := stringify_string_len k
    rw [sepMembers_cons]
    simp [parseFuelMembers, memberText]
    omega
end

theorem parse_stringify (v : value) (hnf : value.noFloat v = true) (hro : value.reprOk v = true)
    (hso : value.sortedObjs v = true) : parse (stringify v) = .ok v := by
  have hP := (parseGo_roundtrip (topFuel (stringify v))).1 v "value" [] hnf hro hso rfl
    (by have := parseFuel_le v; simp [topFuel]; omega)
  rw [List.append_nil] at hP
  unfold parse do_parse parse_value
  rw [hP]
  rfl

/-- C2 - counterexample: the JSON5 direction of the claim fails at `NaN`.
`stringify5` of the NaN value emits the `NaN` literal and `parse5` reads
it back as NaN, but the C++ `operator==` comparison the claim asserts is
false, because `NaN == NaN` is false for `double`. -/
theorem C2_counterexample :
    parse5 (stringify5 (.flt .nan)) = .ok (.flt .nan) ∧
    value.cppEq (.flt .nan) (.flt .nan) = false ∧
    stringify5 (.flt .nan) = bytesOf "NaN" :=
  ⟨by decide, by decide, by decide⟩

/-- C2 (amended): the strict round-trip holds for every value with no
floating-point leaf, with every integer in the platform `int` range and
every string a byte string, and with every object in the map order:
parsing the stringified text yields the value back exactly. -/
theorem C2_roundtrip_amended (v : value) (hnf : value.noFloat v = true)
    (hro : value.reprOk v = true) (hso : value.sortedObjs v = true) :
    parse (stringify v) = .ok v :=
  parse_stringify v hnf hro hso

theorem C2_witness :
    (value.noFloat (.obj [([97], .integer 1),
      ([98], .arr [.str [104, 105], .vnull, .boolean true, .obj []])]) = true) ∧
    parse (stringify (.obj [([97], .integer 1),
      ([98], .arr [.str [104, 105], .vnull, .boolean true, .obj []])])) =
      .ok (.obj [([97], .integer 1),
        ([98], .arr [.str [104, 105], .vnull, .boolean true, .obj []])]) :=
  ⟨by decide, C2_roundtrip_amended _ (by decide) (by decide) (by decide)⟩

theorem parseGo_objLoopStart (f2 : Nat) (k : List Nat) (w : value)
    (kvs : List (List Nat × value)) (rest : List Nat)
    (hmem : ∀ p ∈ (k, w) :: kvs, value.noFloat p.2 = true ∧ value.reprOk p.2 = true ∧
      value.sortedObjs p.2 = true)
    (hfw : parseFuel w ≤ f2) (hfR : 1 + kvs.length + parseFuelMembers kvs ≤ f2) :
    parseGo ecma404 (f2 + 1) (.objLoop []) (memberText k w ++ (sepMembers kvs ++ 125 :: rest)) =
      .ok (.obj (((k, w) :: kvs).foldl (fun m p => mapInsert p.1 p.2 m) []), rest) := by
  obtain ⟨hnfw, hrow, hsow⟩ := hmem (k, w) (by simp)
  simp only [parseGo]
  rw [show memberText k w ++ (sepMembers kvs ++ 125 :: rest) =
    34 :: (((k.map escByte).flatten ++ [34]) ++
      (58 :: (stringify w ++ (sepMembers kvs ++ 125 :: rest)))) by
    simp [memberText, stringify_string]]
  rw [skip_spaces_cons (by decide) (by decide)]
  simp [unget, parse_key_rtCons,
    show ∀ r : List Nat, skip_spaces ecma404 (58 :: r) = .ok (some 58, r) from
      fun r => skip_spaces_cons (by decide) (by decide)]
  rw [(parseGo_roundtrip f2).1 w "object" (sepMembers kvs ++ 125 :: rest) hnfw hrow hsow
    (restOk_sepMembers kvs rest) hfw]
  show parseGo ecma404 f2 (Job.objLoop [(k, w)]) (sepMembers kvs ++ 125 :: rest) = _
  rw [(parseGo_roundtrip f2).2.2 [(k, w)] kvs rest (by simp)
    (fun p hp => hmem p (by simp [hp])) hfR]
  rfl

theorem parseGo_val_objDispatch (g : Nat) (ctx : String) (input : List Nat) :
    parseGo ecma404 (g + 1) (.val ctx) (123 :: input) = parseGo ecma404 g (.objLoop []) input := by
  simp only [parseGo]
  rw [skip_spaces_cons (by decide) (by decide)]
  norm_num

theorem parse_renderObject (kv : List Nat × value) (kvs : List (List Nat × value))
    (hmem : ∀ p ∈ kv :: kvs, value.noFloat p.2 = true ∧ value.reprOk p.2 = true ∧
      value.sortedObjs p.2 = true) :
    parse (renderObject (kv :: kvs)) =
      .ok (.obj ((kv :: kvs).foldl (fun m p => mapInsert p.1 p.2 m) [])) := by
  obtain ⟨k, w⟩ := kv
  have hlen : (renderObject ((k, w) :: kvs)).length =
      (memberText k w).length + (sepMembers kvs).length + 2 := by
    simp [renderObject]
    omega
  have hmt : (memberText k w).length =
      (stringify_string k).length + 1 + (stringify w).length := by
    simp [memberText]
    omega
  have hfuel : ∃ f, topFuel (renderObject ((k, w) :: kvs)) = f + 1 + 1 ∧
      parseFuel w ≤ f ∧ 1 + kvs.length + parseFuelMembers kvs ≤ f := by
    refine ⟨2 * (renderObject ((k, w) :: kvs)).length, by simp [topFuel], ?_, ?_⟩
    · have := parseFuel_le w
      omega
    · have := parseFuelMembers_le kvs
      have := stringify_string_len k
      omega
  obtain ⟨f2, hF, hfw, hfR⟩ := hfuel
  unfold parse do_parse parse_value
  rw [hF]
  rw [show renderObject ((k, w) :: kvs) =
    123 :: (memberText k w ++ (sepMembers kvs ++ 125 :: ([] : List Nat))) by
    simp [renderObject]]
  rw [parseGo_val_objDispatch (f2 + 1) "value" _]
  rw [parseGo_objLoopStart f2 k w kvs [] hmem hfw hfR]
  rfl

/-- C7: an object input listing the same key twice parses without error
and the resulting object maps the key to the value of the last
occurrence, in general (the `emplace`-then-parse-in-place loop realises
insert-or-assign, and a later insert at the same key overwrites), and on
the spec example. -/
theorem C7_duplicate_keys :
    (∀ (k : List Nat) (v1 v2 : value),
      value.noFloat v1 = true ∧ value.reprOk v1 = true ∧ value.sortedObjs v1 = true →
      value.noFloat v2 = true ∧ value.reprOk v2 = true ∧ value.sortedObjs v2 = true →
      parse (renderObject [(k, v1), (k, v2)]) = .ok (.obj [(k, v2)])) ∧
    (∀ (m : List (List Nat × value)) (k : List Nat) (v1 v2 : value),
      mapFind k (mapInsert k v2 (mapInsert k v1 m)) = some v2) ∧
    parse (bytesOf "\x7b\x22a\x22:1,\x22a\x22:2\x7d") = .ok (.obj [([97], .integer 2)]) ∧
    (value.obj [([97], .integer 2)]).at_key [97] = .integer 2 := by
  refine ⟨?_, ?_, by decide, by decide⟩
  · intro k v1 v2 h1 h2
    rw [parse_renderObject (k, v1) [(k, v2)] ?_]
    · simp [mapInsert, keyLt_irrefl]
    · intro p hp
      rw [List.mem_cons, List.mem_singleton] at hp
      rcases hp with h | h <;> subst h
      · exact h1
      · exact h2
  · intro m k v1 v2
    exact mapFind_insert_self _ k v2

theorem C7_witness :
    parse (renderObject [([97], .integer 1), ([97], .integer 2)]) =
      .ok (.obj [([97], .integer 2)]) :=
  C7_duplicate_keys.1 [97] (.integer 1) (.integer 2) ⟨by decide, by decide, by decide⟩
    ⟨by decide, by decide, by decide⟩

theorem parse_null_sorted {input : List Nat} {v : value} {rest : List Nat}
    (h : parse_null input = .ok (v, rest)) : value.sortedObjs v = true := by
  unfold parse_null at h
  split at h
  · simp only [Except.ok.injEq, Prod.mk.injEq] at h
    rw [← h.1]
    rfl
  · simp at h

theorem parse_boolean_sorted {c : Nat} {input : List Nat} {v : value} {rest : List Nat}
    (h : parse_boolean c input = .ok (v, rest)) : value.sortedObjs v = true := by
  unfold parse_boolean at h
  repeat' split at h
  all_goals simp only [Except.ok.injEq, Prod.mk.injEq, reduceCtorEq, false_and, and_false] at h
  all_goals rw [← h.1]
  all_goals rfl

set_option maxHeartbeats 1000000 in
theorem parse_number_tail_sorted {fl : Flags} {neg : Bool} {ip : Nat} {ch : Option Nat}
    {input : List Nat} {v : value} {rest : List Nat}
    (h : parse_number_tail fl neg ip ch input = .ok (v, rest)) : value.sortedObjs v = true := by
  simp only [parse_number_tail] at h
  repeat' split at h
  all_goals simp only [Except.ok.injEq, Prod.mk.injEq, reduceCtorEq, false_and, and_false] at h
  all_goals obtain ⟨h1, h2⟩ := h
  all_goals rw [← h1]
  all_goals rfl

set_option maxHeartbeats 1000000 in
theorem parse_number_sorted {fl : Flags} {c0 : Nat} {input0 : List Nat} {v : value}
    {rest : List Nat}
    (h : parse_number fl c0 input0 = .ok (v, rest)) : value.sortedObjs v = true := by
  simp only [parse_number] at h
  repeat' split at h
  all_goals first
  | exact parse_number_tail_sorted h
  | (simp only [Except.ok.injEq, Prod.mk.injEq, reduceCtorEq, false_and, and_false] at h
     obtain ⟨h1, h2⟩ := h
     rw [← h1]
     rfl)
  | simp at h

theorem mapInsert_head (k : List Nat) (v : value) :
    ∀ (m : List (List Nat × value)) (p : List Nat × value) (t : List (List Nat × value)),
      mapInsert k v m = p :: t → p.1 = k ∨ ∃ q t2, m = q :: t2 ∧ p.1 = q.1 := by
  intro m p t he
  cases m with
  | nil =>
    rw [show mapInsert k v [] = [(k, v)] from rfl] at he
    injection he with h1 _
    exact Or.inl (by rw [← h1])
  | cons q rest =>
    obtain ⟨k1, v1⟩ := q
    unfold mapInsert at he
    split at he
    · injection he with h1 _
      exact Or.inl (by rw [← h1])
    · split at he
      · injection he with h1 _
        exact Or.inl (by rw [← h1])
      · injection he with h1 _
        exact Or.inr ⟨(k1, v1), rest, rfl, by rw [← h1]⟩

theorem mapInsert_sorted (v : value) (hv : value.sortedObjs v = true) :
    ∀ (m : List (List Nat × value)) (k : List Nat),
      value.sortedObjsMembers m = true →
      value.sortedObjsMembers (mapInsert k v m) = true := by
  intro m
  induction m with
  | nil =>
    intro k _
    show value.sortedObjsMembers [(k, v)] = true
    exact sortedMembers_cons.mpr ⟨hv, fun k2 v2 kvs2 h => List.noConfusion h, rfl⟩
  | cons q rest ih =>
    intro k hm
    obtain ⟨k1, v1⟩ := q
    obtain ⟨hv1, hhd, hrest⟩ := sortedMembers_cons.mp hm
    unfold mapInsert
    by_cases hlt : keyLt k k1 = true
    · rw [if_pos hlt]
      refine sortedMembers_cons.mpr ⟨hv, ?_, hm⟩
      intro k2 v2 kvs2 he
      injection he with h1 _
      rw [show k2 = k1 by rw [Prod.mk.injEq] at h1; exact h1.1.symm]
      exact hlt
    · rw [if_neg hlt]
      by_cases heq : k = k1
      · rw [if_pos heq]
        refine sortedMembers_cons.mpr ⟨hv, ?_, hrest⟩
        intro k2 v2 kvs2 he
        rw [heq]
        exact hhd k2 v2 kvs2 he
      · rw [if_neg heq]
        have hlt2 : keyLt k1 k = true := by
          cases hb : keyLt k1 k with
          | true => rfl
          | false =>
            exact absurd (keyLt_total k k1 (by simpa using hlt) hb) heq
        refine sortedMembers_cons.mpr ⟨hv1, ?_, ih k hrest⟩
        intro k2 v2 kvs2 he
        rcases mapInsert_head k v rest (k2, v2) kvs2 he with h | ⟨q2, t2, hq, hh⟩
        · rw [show k2 = k from h]
          exact hlt2
        · obtain ⟨kq, vq⟩ := q2
          rw [show k2 = kq from hh]
          exact hhd kq vq t2 hq

theorem sortedList_append1 : ∀ (vs : List value) (w : value),
    value.sortedObjsList vs = true → value.sortedObjs w = true →
    value.sortedObjsList (vs ++ [w]) = true := by
  intro vs
  induction vs with
  | nil =>
    intro w _ hw
    show (value.sortedObjs w && value.sortedObjsList []) = true
    simp [hw]
    rfl
  | cons u us ih =>
    intro w h hw
    rw [show value.sortedObjsList (u :: us) = (value.sortedObjs u && value.sortedObjsList us)
      from rfl, Bool.and_eq_true] at h
    show (value.sortedObjs u && value.sortedObjsList (us ++ [w])) = true
    rw [Bool.and_eq_true]
    exact ⟨h.1, ih w h.2 hw⟩

theorem parseGo_sorted (fl : Flags) : ∀ (fuel : Nat) (job : Job) (input : List Nat)
    (v : value) (rest : List Nat),
    (match job with
     | .val _ => True
     | .arrLoop acc => value.sortedObjsList acc = true
     | .objLoop acc => value.sortedObjsMembers acc = true) →
    parseGo fl fuel job input = .ok (v, rest) → value.sortedObjs v = true := by
  intro fuel
  induction fuel with
  | zero =>
    intro job input v rest _ h
    simp [parseGo] at h
  | succ f ih =>
    intro job input v rest hja h
    cases job with
    | val ctx =>
      simp only [parseGo] at h
      repeat' split at h
      all_goals first
      | exact parse_number_sorted h
      | exact parse_null_sorted h
      | exact parse_boolean_sorted h
      | exact ih _ _ _ _ rfl h
      | (simp only [Except.ok.injEq, Prod.mk.injEq, reduceCtorEq, false_and, and_false] at h
         obtain ⟨h1, h2⟩ := h
         rw [← h1]
         rfl)
      | simp at h
    | arrLoop acc =>
      simp only [parseGo] at h
      split at h
      · simp at h
      · split at h
        · simp only [Except.ok.injEq, Prod.mk.injEq] at h
          obtain ⟨h1, _⟩ := h
          rw [← h1]
          exact hja
        · split at h
          · simp at h
          · simp only [Except.ok.injEq, Prod.mk.injEq] at h
            obtain ⟨h1, _⟩ := h
            rw [← h1]
            exact hja
          · split at h
            · simp at h
            · rename_i v2 rest2 hv2
              refine ih _ _ _ _ ?_ h
              exact sortedList_append1 acc v2 hja (ih _ _ _ _ trivial hv2)
    | objLoop acc =>
      simp only [parseGo] at h
      split at h
      · simp at h
      · split at h
        · simp only [Except.ok.injEq, Prod.mk.injEq] at h
          obtain ⟨h1, _⟩ := h
          rw [← h1]
          exact hja
        · split at h
          · simp at h
          · simp only [Except.ok.injEq, Prod.mk.injEq] at h
            obtain ⟨h1, _⟩ := h
            rw [← h1]
            exact hja
          · split at h
            · simp at h
            · split at h
              · simp at h
              · split at h
                · split at h
                  · simp at h
                  · rename_i v2 rest4 hv2
                    refine ih _ _ _ _ ?_ h
                    exact mapInsert_sorted v2 (ih _ _ _ _ trivial hv2) acc _ hja
                · simp at h

theorem do_parse_sorted {fl : Flags} {fm : Bool} {fuel : Nat} {input : List Nat} {v : value}
    {rest : List Nat} (h : do_parse fl fm fuel input = .ok (v, rest)) :
    value.sortedObjs v = true := by
  unfold do_parse parse_value at h
  rcases hpv : parseGo fl fuel (.val "value") input with e | p
  · rw [hpv] at h
    simp at h
  · obtain ⟨pv, pr⟩ := p
    rw [hpv] at h
    have hs := parseGo_sorted fl fuel (.val "value") input pv pr trivial hpv
    cases fm with
    | false =>
      have h2 : (Except.ok (pv, pr) : Except SyntaxErr (value × List Nat)) =
          Except.ok (v, rest) := h
      injection h2 with h3
      rw [show v = pv by rw [Prod.mk.injEq] at h3; exact h3.1.symm]
      exact hs
    | true =>
      have h2 : (match skip_spaces fl pr with
        | Except.error e => Except.error e
        | Except.ok (none, rest2) => Except.ok (pv, rest2)
        | Except.ok (some c, _) => Except.error ⟨some c, "value"⟩) = Except.ok (v, rest) := h
      rcases hss : skip_spaces fl pr with e2 | p2
      · rw [hss] at h2
        simp at h2
      · obtain ⟨ch2, r2⟩ := p2
        rw [hss] at h2
        cases ch2 with
        | none =>
          have h4 : (Except.ok (pv, r2) : Except SyntaxErr (value × List Nat)) =
              Except.ok (v, rest) := h2
          injection h4 with h3
          rw [show v = pv by rw [Prod.mk.injEq] at h3; exact h3.1.symm]
          exact hs
        | some c => simp at h2

theorem parse_sorted {input : List Nat} {v : value} (h : parse input = .ok v) :
    value.sortedObjs v = true := by
  unfold parse at h
  rcases hdp : do_parse ecma404 true (topFuel input) input with e | p
  · rw [hdp] at h
    simp [Except.map] at h
  · obtain ⟨pv, pr⟩ := p
    rw [hdp] at h
    simp only [Except.map, Except.ok.injEq] at h
    rw [← h]
    exact do_parse_sorted hdp

theorem parse5_sorted {input : List Nat} {v : value} (h : parse5 input = .ok v) :
    value.sortedObjs v = true := by
  unfold parse5 at h
  rcases hdp : do_parse json5 true (topFuel input) input with e | p
  · rw [hdp] at h
    simp [Except.map] at h
  · obtain ⟨pv, pr⟩ := p
    rw [hdp] at h
    simp only [Except.map, Except.ok.injEq] at h
    rw [← h]
    exact do_parse_sorted hdp

theorem sortedMembers_pairwise : ∀ kvs : List (List Nat × value),
    value.sortedObjsMembers kvs = true →
    List.Pairwise (fun a b : List Nat × value => keyLt a.1 b.1 = true) kvs := by
  intro kvs
  induction kvs with
  | nil => intro _; exact List.Pairwise.nil
  | cons q rest ih =>
    obtain ⟨k, w⟩ := q
    intro h
    exact List.Pairwise.cons (fun b hb => sortedMembers_head_lt rest k w h b hb)
      (ih (sortedMembers_cons.mp h).2.2)

theorem sortedMembers_nodup (kvs : List (List Nat × value))
    (h : value.sortedObjsMembers kvs = true) : (kvs.map Prod.fst).Nodup := by
  have hp := sortedMembers_pairwise kvs h
  refine List.Pairwise.map Prod.fst ?_ hp
  intro a b hab he
  rw [he] at hab
  simp [keyLt_irrefl] at hab

/-- C9: every object produced by the parsers (at any nesting depth)
carries its members in strictly ascending `std::string` order of the
keys; strict ascent makes the keys pairwise distinct, so iteration order
(and hence the stringified member order) is the ascending lexicographic
key order regardless of the order the members were parsed in — shown
concretely by the example, whose parse order `b, a` comes back as `a, b`
in both the map and its stringification. -/
theorem C9_object_key_order :
    (∀ (input : List Nat) (v : value), parse input = .ok v → value.sortedObjs v = true) ∧
    (∀ (input : List Nat) (v : value), parse5 input = .ok v → value.sortedObjs v = true) ∧
    (∀ kvs : List (List Nat × value), value.sortedObjsMembers kvs = true →
      List.Pairwise (fun a b : List Nat × value => keyLt a.1 b.1 = true) kvs ∧
      (kvs.map Prod.fst).Nodup) ∧
    parse (bytesOf "\x7b\x22b\x22:1,\x22a\x22:2\x7d") =
      .ok (.obj [([97], .integer 2), ([98], .integer 1)]) ∧
    stringify (.obj [([97], .integer 2), ([98], .integer 1)]) =
      bytesOf "\x7b\x22a\x22:2,\x22b\x22:1\x7d" := by
  refine ⟨fun input v h => parse_sorted h, fun input v h => parse5_sorted h,
    fun kvs h => ⟨sortedMembers_pairwise kvs h, sortedMembers_nodup kvs h⟩,
    by decide, by decide⟩

theorem C9_witness :
    value.sortedObjs (.obj [([97], .integer 2), ([98], .integer 1)]) = true :=
  C9_object_key_order.1 (bytesOf "\x7b\x22b\x22:1,\x22a\x22:2\x7d")
    (.obj [([97], .integer 2), ([98], .integer 1)]) (by decide)

end Json5pp
